import Mathlib

/-!
Verification of the configuration-validation utility
(`tools/validate_config/validate_configs.py` and the earlier
`validate_configs.py`) against its design specification.

The program is shallowly embedded: YAML/JSON values become the inductive
`Json`; the per-file validation procedure `validate_config_file`, the schema
loader `load_schema` and the driver `main` are translated from the Python
source.  File I/O is abstracted as explicit inputs (a file's parsed document
stream is an `Except`, mirroring the exception the YAML parser may raise; the
filesystem is a partial map from path to content).  The generic Draft-7
evaluator lives in the third-party `jsonschema` library, outside this
repository; the fragment of it that the claims exercise is modelled from the
specification and marked as such.
-/

/-- A JSON/YAML-compatible value: the common data model for schemas
(`SchemaDocument`) and parsed configuration documents (`ConfigDocument`).
Floating-point numbers are outside the modelled fragment (neither the
schemas nor the claims involve them). -/
inductive Json where
  | null
  | bool (b : Bool)
  | int (n : Int)
  | str (s : String)
  | arr (items : List Json)
  | obj (entries : List (String × Json))

instance : Inhabited Json := ⟨Json.null⟩

/-- First-match association lookup: Python's `dict.get` for a dict with
string keys (keys are unique in a Python dict, so first match is the match). -/
def storeGet (store : List (String × Json)) (k : String) : Option Json :=
  match store with
  | [] => none
  | (k0, v) :: rest => if k0 = k then some v else storeGet rest k

/-- Key lookup in a JSON object (`schema["$ref"]`-style access); `none` on
non-objects or absent keys. -/
def jGet (j : Json) (key : String) : Option Json :=
  match j with
  | .obj kvs => storeGet kvs key
  | _ => none

/-! ## The reference decomposition: a model of `urllib.parse.urlparse`

`custom_uri_handler` (source lines 55-60) decomposes the reference string
with `urlparse`.  The model below follows CPython's `urlsplit`/`urlparse`:
strip the unsafe characters, detect a scheme (a leading alphabetic character
followed by scheme characters, up to a colon), then split netloc, fragment,
query, and params. -/

def isAsciiAlpha (c : Char) : Bool :=
  (65 ≤ c.toNat && c.toNat ≤ 90) || (97 ≤ c.toNat && c.toNat ≤ 122)

def isAsciiDigitCh (c : Char) : Bool :=
  48 ≤ c.toNat && c.toNat ≤ 57

/-- Characters allowed in a URL scheme after the first: letters, digits,
`+`, `-`, `.` (CPython's `scheme_chars`). -/
def isSchemeChar (c : Char) : Bool :=
  isAsciiAlpha c || isAsciiDigitCh c || c = '+' || c = '-' || c = '.'

/-- CPython removes tab, carriage return and newline from the URL before
splitting it. -/
def dropUrlControlChars (cs : List Char) : List Char :=
  cs.filter (fun c => !(c = '\t' || c = '\r' || c = '\n'))

/-- Split off the scheme: if the string has a colon at position > 0, the part
before it starts with a letter and consists of scheme characters, the scheme
is that part lowercased and the remainder follows the colon; otherwise the
scheme is empty and the string is unchanged. -/
def splitSchemeChars (cs : List Char) : List Char × List Char :=
  let p := cs.span (fun c => c ≠ ':')
  match p.2 with
  | ':' :: rest =>
    match p.1 with
    | [] => ([], cs)
    | c0 :: _ =>
      if isAsciiAlpha c0 && p.1.all isSchemeChar then (p.1.map Char.toLower, rest)
      else ([], cs)
  | _ => ([], cs)

/-- Split off the network location when the remainder starts with `//`:
everything up to the next `/`, `?` or `#`. -/
def splitNetlocChars (cs : List Char) : List Char × List Char :=
  match cs with
  | '/' :: '/' :: rest =>
    let nl := rest.takeWhile (fun c => c ≠ '/' && c ≠ '?' && c ≠ '#')
    (nl, rest.drop nl.length)
  | _ => ([], cs)

/-- Split at the first occurrence of `sep`: (before, after); when `sep` is
absent the second component is empty (Python's `url.split(sep, 1)` used
under an `in` guard, and `('x', '')` when absent matches the unsplit case). -/
def splitAtFirst (sep : Char) (cs : List Char) : List Char × List Char :=
  let p := cs.span (fun c => c ≠ sep)
  match p.2 with
  | _ :: rest => (p.1, rest)
  | [] => (p.1, [])

/-- CPython's `_splitparams`: split the `;params` suffix off the last path
segment (only a `;` at or after the last `/` counts). -/
def splitParamsChars (cs : List Char) : List Char × List Char :=
  if cs.contains '/' then
    let seg := (cs.reverse.takeWhile (fun c => c ≠ '/')).reverse
    let stem := cs.take (cs.length - seg.length)
    if seg.contains ';' then
      let q := splitAtFirst ';' seg
      (stem ++ q.1, q.2)
    else (cs, [])
  else
    if cs.contains ';' then splitAtFirst ';' cs else (cs, [])

/-- The result of `urlparse`: scheme, netloc, path, params, query, fragment. -/
structure UrlParts where
  scheme : String
  netloc : String
  path : String
  params : String
  query : String
  fragment : String
deriving DecidableEq

/-- Schemes for which `urlparse` separates path params (CPython's
`uses_params`; the empty scheme is among them). -/
def usesParamsSchemes : List String :=
  ["", "ftp", "hdl", "prospero", "http", "imap", "https", "shttp", "rtsp",
   "rtspu", "sip", "sips", "mms", "sftp", "tel"]

/-- Model of `urllib.parse.urlparse` for string input with fragments
allowed: the decomposition used by the reference resolver. -/
def urlparse (uri : String) : UrlParts :=
  let cs := dropUrlControlChars uri.data
  let s1 := splitSchemeChars cs
  let s2 := splitNetlocChars s1.2
  let s3 := splitAtFirst '#' s2.2
  let s4 := splitAtFirst '?' s3.1
  let scheme : String := ⟨s1.1⟩
  let pp :=
    if usesParamsSchemes.contains scheme && s4.1.contains ';' then
      splitParamsChars s4.1
    else (s4.1, [])
  ⟨scheme, ⟨s2.1⟩, ⟨pp.1⟩, ⟨pp.2⟩, ⟨s4.2⟩, ⟨s3.2⟩⟩

/-- Python's `str.lstrip('/')`: drop every leading `/`. -/
def lstripSlash (s : String) : String :=
  ⟨s.data.dropWhile (fun c => c = '/')⟩

/-- The custom URI handler of `validate_config_file` (source lines 55-60):
parse the reference; when the scheme is empty (a relative path) strip leading
slashes from the path and look it up in the store (`store.get`, so `none`
when the key is absent); for any other scheme return `none`. -/
def custom_uri_handler (store : List (String × Json)) (uri : String) : Option Json :=
  let parsed := urlparse uri
  if parsed.scheme = "" then
    let path := lstripSlash parsed.path
    storeGet store path
  else none

/-! ## The validator

The generic Draft-7 evaluator is the `jsonschema` library, which is not part
of this repository; the fragment the claims exercise is modelled from the
specification below. -/

/-- A single structural violation: the path from the document root to the
offending node plus a human-readable message (spec section 3,
`ValidationError`). -/
structure ValidationError where
  path : List String
  message : String
deriving DecidableEq

instance : Inhabited ValidationError := ⟨⟨[], ""⟩⟩

def isObjJ : Json → Bool
  | .obj _ => true
  | _ => false

/-- Draft-7 `type` keyword semantics for the modelled fragment (booleans are
not integers, matching the library's special-casing). -/
def typeMatches (t : String) (doc : Json) : Bool :=
  if t = "object" then isObjJ doc
  else if t = "array" then (match doc with | .arr _ => true | _ => false)
  else if t = "string" then (match doc with | .str _ => true | _ => false)
  else if t = "integer" then (match doc with | .int _ => true | _ => false)
  else if t = "number" then (match doc with | .int _ => true | _ => false)
  else if t = "boolean" then (match doc with | .bool _ => true | _ => false)
  else if t = "null" then (match doc with | .null => true | _ => false)
  else true

/-- Violations of the schema's `type` keyword against the document. -/
def typeErrs (schema doc : Json) : List ValidationError :=
  match jGet schema "type" with
  | some (.str t) =>
      if typeMatches t doc then [] else [⟨[], "is not of type " ++ t⟩]
  | _ => []

/-- Violations of the schema's `required` keyword: one error per missing
required property (applies only to object instances, as in the library). -/
def requiredErrs (schema doc : Json) : List ValidationError :=
  match jGet schema "required" with
  | some (.arr reqs) =>
      if isObjJ doc then
        reqs.filterMap (fun r =>
          match r with
          | .str name =>
              if (jGet doc name).isNone then
                some ⟨[], name ++ " is a required property"⟩
              else none
          | _ => none)
      else []
  | _ => []

/-- Modelled from the spec: the generic Draft-7 structural evaluator provided
by the third-party `jsonschema` library, which is not part of this
repository's sources.  Per spec section 4.4 it "returns one ValidationError
per independent structural violation ... does not stop at the first
violation", and per section 4.2 an unresolved external reference must "fail
with a clear reference-not-found diagnostic".  The modelled dialect fragment
is `$ref` (resolved through the source's `custom_uri_handler` against the
schema store), `type`, `required` and `properties`; `fuel` bounds reference
chains, which the modelled schemas never exhaust. -/
def evalErrors (store : List (String × Json)) : Nat → Json → Json → List ValidationError
  | 0, _, _ => []
  | fuel + 1, schema, doc =>
    match jGet schema "$ref" with
    | some (.str r) =>
        match custom_uri_handler store r with
        | none => [⟨[], "reference not found: " ++ r⟩]
        | some resolved => evalErrors store fuel resolved doc
    | _ =>
        let propErrs :=
          match jGet schema "properties" with
          | some (.obj props) =>
              props.foldr (fun kv acc =>
                match jGet doc kv.1 with
                | some dv =>
                    ((evalErrors store fuel kv.2 dv).map
                      (fun e => ⟨kv.1 :: e.path, e.message⟩)) ++ acc
                | none => acc) []
          | _ => []
        typeErrs schema doc ++ requiredErrs schema doc ++ propErrs

/-- Model of `Draft7Validator.validate` as the source uses it (line 76): the method
raises the first error of the evaluator's error sequence, so its observable
outcome is `none` (no exception, document valid) or `some e` with `e` the
first violation. -/
def validator_validate (store : List (String × Json)) (fuel : Nat)
    (schema doc : Json) : Option ValidationError :=
  (evalErrors store fuel schema doc).head?

/-! ## Per-file validation: `validate_config_file` (source lines 36-100) -/

/-- The observable outcome of `validate_config_file` for one file:
whether the outer `except` path was taken (the "Error reading/parsing file"
report), the per-document failure reports (the "Document i+1 Invalid" lines,
tagged with their 1-based index and the single printed error), the returned
boolean, and — when the file is valid — the printed count of non-empty
documents. -/
structure FileResult where
  readError : Bool
  docReports : List (Nat × ValidationError)
  valid : Bool
  docCount : Option Nat
deriving DecidableEq

/-- One step of the document loop (source lines 72-81): skip a `None`
document; otherwise validate it, and on the first raised error append the
report tagged with the 1-based index and clear `all_valid`. -/
def docStep (store : List (String × Json)) (fuel : Nat) (schema : Json)
    (st : List (Nat × ValidationError) × Bool) (p : Nat × Option Json) :
    List (Nat × ValidationError) × Bool :=
  match p.2 with
  | none => st
  | some config =>
      match validator_validate store fuel schema config with
      | none => st
      | some e => (st.1 ++ [(p.1 + 1, e)], false)

/-- Embedding of `validate_config_file(file_path, schema)` (source lines 36-100).  The
file's content arrives pre-read: `parsed` is the outcome of
`list(yaml.safe_load_all(f))` — the whole document stream is parsed up front,
an exception anywhere yielding `Except.error`; `sharedDefs` is the outcome of
loading `shared-definitions.json`, which the source performs inside this
function, per file.  Either failure reaches the outer `except Exception`
(lines 97-100): the file is reported as a read/parse error and `False` is
returned, with no document validated.  Otherwise the store maps
`"shared-definitions.json"` to the shared schema and each non-`None` document
is validated in turn with `enumerate` indices. -/
def validate_config_file (parsed : Except String (List (Option Json)))
    (sharedDefs : Except String Json) (schema : Json) (fuel : Nat) : FileResult :=
  match parsed with
  | .error _ => ⟨true, [], false, none⟩
  | .ok documents =>
    match sharedDefs with
    | .error _ => ⟨true, [], false, none⟩
    | .ok shared =>
      let store := [("shared-definitions.json", shared)]
      let res := documents.enum.foldl (docStep store fuel schema) ([], true)
      if res.2 then
        ⟨false, res.1, true, some (documents.filterMap id).length⟩
      else ⟨false, res.1, false, none⟩

/-! ## JSON serialisation: models of `json.dump(schema, f, indent=2)` and
`json.load` over the value fragment the program uses (no floats).

`main` of the earlier script saves the schema with `json.dump(schema, f,
indent=2)` (source `validate_configs.py` lines 351-355), and `load_schema`
reads schema files back with `json.load` (lines 29-31 of the tool).  The
printer follows CPython's `ensure_ascii` encoder for code points up to
`0xFFFF` (beyond that CPython emits a surrogate pair, outside the modelled
fragment), and the parser is a recursive-descent reader of the same
grammar restricted to integer numerals. -/

def isJsonWs (c : Char) : Bool :=
  c = ' ' || c = '\t' || c = '\n' || c = '\r'

/-- Drop leading JSON whitespace (the parser's inter-token skipping). -/
def skipWs : List Char → List Char
  | [] => []
  | c :: cs => if isJsonWs c then skipWs cs else c :: cs

def digitChar (d : Nat) : Char :=
  match d with
  | 0 => '0' | 1 => '1' | 2 => '2' | 3 => '3' | 4 => '4'
  | 5 => '5' | 6 => '6' | 7 => '7' | 8 => '8' | _ => '9'

/-- Decimal digits of `n`, most significant first (Python's `repr` for a
non-negative int). -/
def natChars (n : Nat) : List Char :=
  if n < 10 then [digitChar n]
  else natChars (n / 10) ++ [digitChar (n % 10)]
termination_by n
decreasing_by exact Nat.div_lt_self (by omega) (by omega)

/-- Python's `repr` of an int: optional minus sign, then decimal digits. -/
def intChars (i : Int) : List Char :=
  if i < 0 then '-' :: natChars i.natAbs else natChars i.natAbs

/-- The longest leading run of decimal digits, and the remainder. -/
def digitSpan : List Char → List Char × List Char
  | [] => ([], [])
  | c :: cs =>
    if isAsciiDigitCh c then
      let p := digitSpan cs
      (c :: p.1, p.2)
    else ([], c :: cs)

/-- The number a digit run denotes. -/
def digitsVal (ds : List Char) : Nat :=
  ds.foldl (fun a c => a * 10 + (c.toNat - 48)) 0

def hexDigitChar (d : Nat) : Char :=
  match d with
  | 0 => '0' | 1 => '1' | 2 => '2' | 3 => '3' | 4 => '4' | 5 => '5' | 6 => '6'
  | 7 => '7' | 8 => '8' | 9 => '9' | 10 => 'a' | 11 => 'b' | 12 => 'c'
  | 13 => 'd' | 14 => 'e' | _ => 'f'

/-- A `\uXXXX` escape (lowercase hex, as CPython emits). -/
def uEscape (n : Nat) : List Char :=
  ['\\', 'u', hexDigitChar (n / 4096 % 16), hexDigitChar (n / 256 % 16),
   hexDigitChar (n / 16 % 16), hexDigitChar (n % 16)]

/-- CPython's `ensure_ascii` escaping of a single character: the named
escapes, `\uXXXX` for other control or non-ASCII characters (for code points
up to `0xFFFF`), and the character itself otherwise. -/
def escChar (c : Char) : List Char :=
  if c = '"' then ['\\', '"']
  else if c = '\\' then ['\\', '\\']
  else if c = '\n' then ['\\', 'n']
  else if c = '\r' then ['\\', 'r']
  else if c = '\t' then ['\\', 't']
  else if c.toNat = 8 then ['\\', 'b']
  else if c.toNat = 12 then ['\\', 'f']
  else if c.toNat < 32 || 126 < c.toNat then uEscape c.toNat
  else [c]

def escList : List Char → List Char
  | [] => []
  | c :: cs => escChar c ++ escList cs

/-- A JSON string literal: quote, escaped characters, quote. -/
def dumpStr (s : String) : List Char :=
  '"' :: (escList s.data ++ ['"'])

/-- The newline-plus-indentation separator `json.dump` emits between items
at indentation depth `k`. -/
def nlIndent (k : Nat) : List Char :=
  '\n' :: List.replicate k ' '

mutual
/-- Model of `json.dumps(v, indent=2)` at current indentation depth `k`: scalars are
their tokens, empty containers collapse to `[]`/`{}`, and non-empty
containers put each item on its own line indented by `k + 2`, separated by
commas, with the closing bracket back at depth `k`. -/
def dumpJ : Nat → Json → List Char
  | _, .null => ['n', 'u', 'l', 'l']
  | _, .bool true => ['t', 'r', 'u', 'e']
  | _, .bool false => ['f', 'a', 'l', 's', 'e']
  | _, .int i => intChars i
  | _, .str s => dumpStr s
  | _, .arr [] => ['[', ']']
  | k, .arr (x :: xs) =>
      '[' :: (nlIndent (k + 2) ++ dumpJ (k + 2) x ++ dumpArrTail (k + 2) xs
        ++ nlIndent k ++ [']'])
  | _, .obj [] => ['\x7b', '\x7d']
  | k, .obj (e :: es) =>
      '\x7b' :: (nlIndent (k + 2) ++ dumpEntry (k + 2) e ++ dumpObjTail (k + 2) es
        ++ nlIndent k ++ ['\x7d'])
/-- One object member: `"key": value` (the `': '` separator `json.dump`
uses when an indent is given). -/
def dumpEntry : Nat → String × Json → List Char
  | k, (key, v) => dumpStr key ++ ':' :: ' ' :: dumpJ k v
/-- The remaining array items, each preceded by `,\n` and indentation. -/
def dumpArrTail : Nat → List Json → List Char
  | _, [] => []
  | k, x :: xs => ',' :: (nlIndent k ++ dumpJ k x ++ dumpArrTail k xs)
/-- The remaining object members, each preceded by `,\n` and indentation. -/
def dumpObjTail : Nat → List (String × Json) → List Char
  | _, [] => []
  | k, e :: es => ',' :: (nlIndent k ++ dumpEntry k e ++ dumpObjTail k es)
end

/-- Inverse of a named escape character. -/
def unescChar (c : Char) : Option Char :=
  if c = '"' then some '"'
  else if c = '\\' then some '\\'
  else if c = '/' then some '/'
  else if c = 'n' then some '\n'
  else if c = 'r' then some '\r'
  else if c = 't' then some '\t'
  else if c = 'b' then some (Char.ofNat 8)
  else if c = 'f' then some (Char.ofNat 12)
  else none

/-- Value of one hex digit, either case. -/
def hexVal (c : Char) : Option Nat :=
  if 48 ≤ c.toNat && c.toNat ≤ 57 then some (c.toNat - 48)
  else if 97 ≤ c.toNat && c.toNat ≤ 102 then some (c.toNat - 87)
  else if 65 ≤ c.toNat && c.toNat ≤ 70 then some (c.toNat - 55)
  else none

/-- Parse a string body after the opening quote: literal characters, named
escapes and `\uXXXX` escapes, up to the closing quote. -/
def parseStrBody : List Char → Option (List Char × List Char)
  | '"' :: rest => some ([], rest)
  | '\\' :: 'u' :: a :: b :: c :: d :: rest =>
      match hexVal a, hexVal b, hexVal c, hexVal d with
      | some va, some vb, some vc, some vd =>
          (parseStrBody rest).map (fun p =>
            (Char.ofNat (va * 4096 + vb * 256 + vc * 16 + vd) :: p.1, p.2))
      | _, _, _, _ => none
  | '\\' :: e :: rest =>
      match unescChar e with
      | some ch => (parseStrBody rest).map (fun p => (ch :: p.1, p.2))
      | none => none
  | c :: rest => (parseStrBody rest).map (fun p => (c :: p.1, p.2))
  | [] => none

/-- Does a fractional part or exponent follow?  The model covers integer
numerals only, so such input is out of the modelled fragment. -/
def floatFollows : List Char → Bool
  | c :: _ => c = '.' || c = 'e' || c = 'E'
  | [] => false

mutual
/-- Recursive-descent parse of one JSON value (model of `json.load`'s
grammar, integers only).  `fuel` decreases at every recursive call; the
top-level entry point supplies more fuel than any input can consume. -/
def parseVal : Nat → List Char → Option (Json × List Char)
  | 0, _ => none
  | fuel + 1, cs =>
    match skipWs cs with
    | 'n' :: 'u' :: 'l' :: 'l' :: rest => some (.null, rest)
    | 't' :: 'r' :: 'u' :: 'e' :: rest => some (.bool true, rest)
    | 'f' :: 'a' :: 'l' :: 's' :: 'e' :: rest => some (.bool false, rest)
    | '"' :: rest => (parseStrBody rest).map (fun p => (.str ⟨p.1⟩, p.2))
    | '[' :: rest =>
        (match skipWs rest with
         | [] => none
         | c :: r2 =>
           if c = ']' then some (.arr [], r2)
           else (parseItems fuel (c :: r2)).map (fun p => (.arr p.1, p.2)))
    | '\x7b' :: rest =>
        (match skipWs rest with
         | [] => none
         | c :: r2 =>
           if c = '\x7d' then some (.obj [], r2)
           else (parseEntries fuel (c :: r2)).map (fun p => (.obj p.1, p.2)))
    | '-' :: rest =>
        (match digitSpan rest with
         | ([], _) => none
         | (ds, r2) =>
             if floatFollows r2 then none
             else some (.int (-(digitsVal ds : Int)), r2))
    | c :: rest =>
        if isAsciiDigitCh c then
          (match digitSpan (c :: rest) with
           | (ds, r2) =>
               if floatFollows r2 then none
               else some (.int (digitsVal ds), r2))
        else none
    | [] => none
/-- One or more comma-separated array items up to the closing bracket. -/
def parseItems : Nat → List Char → Option (List Json × List Char)
  | 0, _ => none
  | fuel + 1, cs =>
    match parseVal fuel cs with
    | none => none
    | some (v, r) =>
      match skipWs r with
      | ',' :: r2 => (parseItems fuel r2).map (fun p => (v :: p.1, p.2))
      | ']' :: r2 => some ([v], r2)
      | _ => none
/-- One or more comma-separated `"key": value` members up to the closing
brace. -/
def parseEntries : Nat → List Char → Option (List (String × Json) × List Char)
  | 0, _ => none
  | fuel + 1, cs =>
    match skipWs cs with
    | '"' :: r =>
      (match parseStrBody r with
       | none => none
       | some (key, r1) =>
         match skipWs r1 with
         | ':' :: r2 =>
           (match parseVal fuel r2 with
            | none => none
            | some (v, r3) =>
              match skipWs r3 with
              | ',' :: r4 => (parseEntries fuel r4).map (fun p => ((⟨key⟩, v) :: p.1, p.2))
              | '\x7d' :: r4 => some ([(⟨key⟩, v)], r4)
              | _ => none)
         | _ => none)
    | _ => none
end

/-- Model of `json.dumps(v, indent=2)`: the file content `json.dump` writes. -/
def json_dump (v : Json) : String := ⟨dumpJ 0 v⟩

/-- Model of `json.load` on a file whose content is `content`: parse one value and
require only whitespace to follow. -/
def json_load (content : String) : Option Json :=
  match parseVal (content.data.length + 1) content.data with
  | some (v, rest) => if skipWs rest = [] then some v else none
  | none => none

/-! ## Schema loading and the driver: `load_schema` and `main`
(source lines 12-34 and 109-134) -/

/-- Embedding of `load_schema(schema_path, schema_type)` over an abstract filesystem `fs`
(path to content, `none` when the file does not exist).  With an explicit
`--schema` path the file is opened directly (a missing file raises inside the
`try`, caught and fatal); without one the `current`/`legacy` schema file next
to the script is chosen and its existence checked first.  Any failure —
missing file or content `json.load` rejects — prints an error and calls
`sys.exit(1)`, modelled as `Except.error ()`. -/
def load_schema (fs : String → Option String) (schema_path : Option String)
    (schema_type : String) : Except Unit Json :=
  match schema_path with
  | some p =>
      (match fs p with
       | none => .error ()
       | some content =>
         match json_load content with
         | none => .error ()
         | some j => .ok j)
  | none =>
      let schema_file :=
        if schema_type = "legacy" then "legacy-format-schema.json"
        else "current-format-schema.json"
      match fs schema_file with
      | none => .error ()
      | some content =>
        match json_load content with
        | none => .error ()
        | some j => .ok j

/-- The inputs `main` consumes, with file I/O abstracted: the filesystem for
`load_schema`, the parsed CLI arguments, whether the target directory
exists, the discovered config files in sorted order (each as the outcome of
parsing its whole document stream), and the outcome of reading
`shared-definitions.json` (one file on disk, so one outcome shared by every
per-file load). -/
structure Env where
  fs : String → Option String
  schema_path : Option String
  schema_type : String
  dirExists : Bool
  files : List (Except String (List (Option Json)))
  sharedDefs : Except String Json

/-- How a run of `main` ends: `sys.exit(1)`, or normal completion (process
exit code 0) with the printed `valid_count` and file total. -/
inductive RunOutcome where
  | exit1
  | completed (validCount total : Nat)
deriving DecidableEq

/-- Embedding of `main()` (source lines 109-134): load the schema (fatal on failure),
check the directory exists (fatal), find config files (fatal when none —
`if not config_files`), then validate every file in order, counting the
`True` returns, and complete normally — invalid files only lower the
printed count.  (Named `main_run` because Lean reserves `main`.) -/
def main_run (env : Env) (fuel : Nat) : RunOutcome :=
  match load_schema env.fs env.schema_path env.schema_type with
  | .error _ => .exit1
  | .ok schema =>
    if env.dirExists = false then .exit1
    else if env.files.isEmpty then .exit1
    else
      .completed
        ((env.files.map
          (fun f => validate_config_file f env.sharedDefs schema fuel)).countP
            (fun r => r.valid))
        env.files.length

/-! ## Well-formedness and size measures for the codec proofs -/

/-- Strings whose code points stay within `0xFFFF`: the fragment of
CPython's encoder the model covers (larger code points serialise as
surrogate pairs there).  Every schema in the repository is plain ASCII. -/
def strOk (s : String) : Bool :=
  s.data.all (fun c => c.toNat ≤ 65535)

mutual
/-- Every string and object key in the value is within the modelled
encoder fragment. -/
def wfJ : Json → Bool
  | .str s => strOk s
  | .arr xs => wfItems xs
  | .obj es => wfEntries es
  | _ => true
def wfItems : List Json → Bool
  | [] => true
  | x :: xs => wfJ x && wfItems xs
def wfEntries : List (String × Json) → Bool
  | [] => true
  | e :: es => strOk e.1 && wfJ e.2 && wfEntries es
end

mutual
/-- Number of parser steps a value costs: enough fuel for `parseVal`. -/
def sizeV : Json → Nat
  | .arr xs => 1 + sizeItems xs
  | .obj es => 1 + sizeEntries es
  | _ => 1
def sizeItems : List Json → Nat
  | [] => 0
  | x :: xs => 1 + sizeV x + sizeItems xs
def sizeEntries : List (String × Json) → Nat
  | [] => 0
  | e :: es => 1 + sizeV e.2 + sizeEntries es
end

/-! ## Codec lemmas: whitespace handling -/

theorem skipWs_append_ws (w cs : List Char) (h : w.all isJsonWs = true) :
    skipWs (w ++ cs) = skipWs cs := by
  induction w with
  | nil => rfl
  | cons c w ih =>
      simp only [List.all_cons, Bool.and_eq_true] at h
      simp [skipWs, h.1, ih h.2]

theorem skipWs_cons_nonWs (c : Char) (cs : List Char) (h : isJsonWs c = false) :
    skipWs (c :: cs) = c :: cs := by
  simp [skipWs, h]

theorem replicate_space_ws (k : Nat) : (List.replicate k ' ').all isJsonWs = true := by
  induction k with
  | zero => rfl
  | succ n ih => simp [List.replicate_succ, isJsonWs, ih]

theorem nlIndent_ws (k : Nat) : (nlIndent k).all isJsonWs = true := by
  simp only [nlIndent, List.all_cons, Bool.and_eq_true]
  exact ⟨by decide, replicate_space_ws k⟩

/-! ## Codec lemmas: integer numerals -/

/-- The remainder cannot extend an integer numeral: empty, or headed by a
character that is neither a digit nor `.`, `e`, `E`.  Every continuation the
printer produces (comma, newline, closing bracket, end of input) qualifies. -/
def numDelim : List Char → Bool
  | [] => true
  | c :: _ => !(isAsciiDigitCh c || c == '.' || c == 'e' || c == 'E')

theorem digitChar_val (d : Nat) (h : d < 10) :
    (digitChar d).toNat - 48 = d ∧ isAsciiDigitCh (digitChar d) = true := by
  interval_cases d <;> exact ⟨by decide, by decide⟩

theorem natChars_all_digits (n : Nat) : ∀ c ∈ natChars n, isAsciiDigitCh c = true := by
  induction n using Nat.strong_induction_on with
  | _ n ih =>
    rw [natChars]
    by_cases h : n < 10
    · simp only [if_pos h]
      intro c hc
      rw [List.mem_singleton] at hc
      subst hc
      exact (digitChar_val n h).2
    · simp only [if_neg h]
      intro c hc
      rcases List.mem_append.mp hc with h1 | h2
      · exact ih (n / 10) (Nat.div_lt_self (by omega) (by omega)) c h1
      · rw [List.mem_singleton] at h2
        subst h2
        exact (digitChar_val (n % 10) (Nat.mod_lt _ (by omega))).2

theorem natChars_ne_nil (n : Nat) : natChars n ≠ [] := by
  rw [natChars]
  by_cases h : n < 10 <;> simp [h]

theorem natChars_head_digit (n : Nat) :
    ∃ c t, natChars n = c :: t ∧ isAsciiDigitCh c = true := by
  cases hz : natChars n with
  | nil => exact absurd hz (natChars_ne_nil n)
  | cons c t =>
      exact ⟨c, t, rfl, natChars_all_digits n c (hz ▸ List.mem_cons_self _ _)⟩

theorem digitSpan_stop (cs : List Char) (h : numDelim cs = true) :
    digitSpan cs = ([], cs) := by
  cases cs with
  | nil => rfl
  | cons c t =>
      simp only [numDelim, Bool.not_eq_true', Bool.or_eq_false_iff] at h
      simp [digitSpan, h.1.1.1]

theorem digitSpan_run (ds : List Char) (hds : ∀ c ∈ ds, isAsciiDigitCh c = true)
    (rest : List Char) (hrest : numDelim rest = true) :
    digitSpan (ds ++ rest) = (ds, rest) := by
  induction ds with
  | nil => simp [digitSpan_stop rest hrest]
  | cons c t ih =>
      have hc := hds c (List.mem_cons_self _ _)
      have ht := ih (fun x hx => hds x (List.mem_cons_of_mem _ hx))
      simp [digitSpan, hc, ht]

theorem digitsVal_append_digit (ds : List Char) (c : Char) :
    digitsVal (ds ++ [c]) = digitsVal ds * 10 + (c.toNat - 48) := by
  simp [digitsVal, List.foldl_append]

theorem digitsVal_natChars (n : Nat) : digitsVal (natChars n) = n := by
  induction n using Nat.strong_induction_on with
  | _ n ih =>
    rw [natChars]
    by_cases h : n < 10
    · simp only [if_pos h]
      have := (digitChar_val n h).1
      simp [digitsVal, this]
    · simp only [if_neg h]
      rw [digitsVal_append_digit, ih (n / 10) (Nat.div_lt_self (by omega) (by omega)),
          (digitChar_val (n % 10) (Nat.mod_lt _ (by omega))).1]
      omega

theorem numDelim_head_facts (c : Char) (t : List Char) (h : numDelim (c :: t) = true) :
    isAsciiDigitCh c = false ∧ c ≠ '.' ∧ c ≠ 'e' ∧ c ≠ 'E' := by
  simp only [numDelim, Bool.not_eq_true', Bool.or_eq_false_iff,
    beq_eq_false_iff_ne] at h
  obtain ⟨⟨⟨hd, h1⟩, h2⟩, h3⟩ := h
  exact ⟨hd, h1, h2, h3⟩

theorem floatFollows_of_delim (cs : List Char) (h : numDelim cs = true) :
    floatFollows cs = false := by
  cases cs with
  | nil => rfl
  | cons c t =>
      obtain ⟨_, h2, h3, h4⟩ := numDelim_head_facts c t h
      simp [floatFollows, h2, h3, h4]
/-! ## Codec lemmas: string escapes -/

theorem hexVal_hexDigitChar (d : Nat) (h : d < 16) :
    hexVal (hexDigitChar d) = some d := by
  interval_cases d <;> decide

theorem char_ofNat_toNat (c : Char) : Char.ofNat c.toNat = c :=
  Char.ofNat_toNat c

theorem parseStrBody_escChar (c : Char) (hc : c.toNat ≤ 65535) (rest : List Char) :
    parseStrBody (escChar c ++ rest)
      = (parseStrBody rest).map (fun p => (c :: p.1, p.2)) := by
  by_cases h1 : c = '"'
  · subst h1; rfl
  by_cases h2 : c = '\\'
  · subst h2; rfl
  by_cases h3 : c = '\n'
  · subst h3; rfl
  by_cases h4 : c = '\r'
  · subst h4; rfl
  by_cases h5 : c = '\t'
  · subst h5; rfl
  by_cases h6 : c.toNat = 8
  · have : c = Char.ofNat 8 := by rw [← h6, char_ofNat_toNat]
    subst this
    rfl
  by_cases h7 : c.toNat = 12
  · have : c = Char.ofNat 12 := by rw [← h7, char_ofNat_toNat]
    subst this
    rfl
  by_cases h8 : c.toNat < 32 || 126 < c.toNat
  · have he : escChar c = uEscape c.toNat := by
      simp [escChar, h1, h2, h3, h4, h5, h6, h7, h8]
    rw [he]
    simp only [uEscape, List.cons_append]
    rw [parseStrBody]
    rw [hexVal_hexDigitChar (c.toNat / 4096 % 16) (by omega),
        hexVal_hexDigitChar (c.toNat / 256 % 16) (by omega),
        hexVal_hexDigitChar (c.toNat / 16 % 16) (by omega),
        hexVal_hexDigitChar (c.toNat % 16) (by omega)]
    have hnum : c.toNat / 4096 % 16 * 4096 + c.toNat / 256 % 16 * 256
        + c.toNat / 16 % 16 * 16 + c.toNat % 16 = c.toNat := by omega
    simp [hnum, char_ofNat_toNat]
  · have he : escChar c = [c] := by
      simp [escChar, h1, h2, h3, h4, h5, h6, h7, h8]
    rw [he]
    rw [parseStrBody.eq_def]
    simp only [List.cons_append, List.nil_append]
    split
    · rename_i heq
      injection heq with hh _
      exact absurd hh h1
    · rename_i heq
      injection heq with hh _
      exact absurd hh h2
    · rename_i heq
      injection heq with hh _
      exact absurd hh h2
    · rename_i heq
      injection heq with hh ht
      subst hh
      subst ht
      rfl
    · rename_i heq
      exact absurd heq (by simp)

theorem parseStrBody_escList (cs : List Char) (hcs : ∀ c ∈ cs, c.toNat ≤ 65535)
    (rest : List Char) :
    parseStrBody (escList cs ++ '"' :: rest) = some (cs, rest) := by
  induction cs with
  | nil => rfl
  | cons c t ih =>
      rw [escList, List.append_assoc,
          parseStrBody_escChar c (hcs c (List.mem_cons_self _ _)) _,
          ih (fun x hx => hcs x (List.mem_cons_of_mem _ hx))]
      rfl

theorem strOk_chars (s : String) (h : strOk s = true) :
    ∀ c ∈ s.data, c.toNat ≤ 65535 := by
  intro c hc
  have := List.all_eq_true.mp h c hc
  simpa using this

/-! ## Codec lemmas: parser-printer inversion -/

theorem digit_char_facts (c : Char) (h : isAsciiDigitCh c = true) :
    isJsonWs c = false ∧ c ≠ 'n' ∧ c ≠ 't' ∧ c ≠ 'f' ∧ c ≠ '"' ∧ c ≠ '['
      ∧ c ≠ '\x7b' ∧ c ≠ '-' ∧ c ≠ ']' ∧ c ≠ '\x7d' ∧ c ≠ ',' ∧ c ≠ ':' := by
  refine ⟨?_, ?_, ?_, ?_, ?_, ?_, ?_, ?_, ?_, ?_, ?_, ?_⟩
  · cases hw : isJsonWs c
    · rfl
    · exfalso
      simp only [isJsonWs, Bool.or_eq_true, decide_eq_true_eq] at hw
      rcases hw with ((e | e) | e) | e <;> subst e <;> exact absurd h (by decide)
  all_goals intro e
  all_goals subst e
  all_goals exact absurd h (by decide)

theorem parseVal_succ_digit (f : Nat) (c : Char) (t : List Char)
    (hd : isAsciiDigitCh c = true) :
    parseVal (f + 1) (c :: t)
      = (match digitSpan (c :: t) with
         | (ds, r2) =>
             if floatFollows r2 then none
             else some (.int (digitsVal ds), r2)) := by
  obtain ⟨hws, hn, ht, hf, hq, hlb, hob, hm, _, _, _, _⟩ := digit_char_facts c hd
  rw [parseVal.eq_def]
  simp only [skipWs_cons_nonWs c t hws]
  split
  · rename_i heq; injection heq with hh _; exact absurd hh hn
  · rename_i heq; injection heq with hh _; exact absurd hh ht
  · rename_i heq; injection heq with hh _; exact absurd hh hf
  · rename_i heq; injection heq with hh _; exact absurd hh hq
  · rename_i heq; injection heq with hh _; exact absurd hh hlb
  · rename_i heq; injection heq with hh _; exact absurd hh hob
  · rename_i heq; injection heq with hh _; exact absurd hh hm
  · rename_i c2 t2 heq
    injection heq with hh ht2
    subst hh
    subst ht2
    simp [hd]
  · rename_i heq
    exact absurd heq (by simp)

theorem parseVal_int (f : Nat) (i : Int) (rest : List Char) (hr : numDelim rest = true) :
    parseVal (f + 1) (intChars i ++ rest) = some (.int i, rest) := by
  have hff := floatFollows_of_delim rest hr
  by_cases h : i < 0
  · have harg : intChars i ++ rest = '-' :: (natChars i.natAbs ++ rest) := by
      simp [intChars, h]
    rw [harg]
    have hstep : parseVal (f + 1) ('-' :: (natChars i.natAbs ++ rest))
        = (match digitSpan (natChars i.natAbs ++ rest) with
           | ([], _) => none
           | (ds, r2) =>
               if floatFollows r2 then none
               else some (.int (-(digitsVal ds : Int)), r2)) := rfl
    rw [hstep, digitSpan_run _ (natChars_all_digits _) _ hr]
    cases hct : natChars i.natAbs with
    | nil => exact absurd hct (natChars_ne_nil _)
    | cons c t =>
        have hv : digitsVal (c :: t) = i.natAbs := by
          rw [← hct]; exact digitsVal_natChars _
        simp only [hff, Bool.false_eq_true, if_false, hv]
        have : -(i.natAbs : Int) = i := by omega
        rw [this]
  · obtain ⟨c, t, hct, hd⟩ := natChars_head_digit i.natAbs
    have harg : intChars i ++ rest = c :: (t ++ rest) := by
      simp [intChars, h, hct]
    rw [harg, parseVal_succ_digit f c _ hd]
    have hrun : digitSpan (c :: (t ++ rest)) = (c :: t, rest) := by
      have := digitSpan_run (natChars i.natAbs) (natChars_all_digits _) rest hr
      rw [hct] at this
      simpa using this
    rw [hrun]
    have hv : digitsVal (c :: t) = i.natAbs := by
      rw [← hct]; exact digitsVal_natChars _
    simp only [hff, Bool.false_eq_true, if_false, hv]
    have : (i.natAbs : Int) = i := by omega
    rw [this]

theorem parseVal_succ (f : Nat) (cs : List Char) :
    parseVal (f + 1) cs
      = (match skipWs cs with
         | 'n' :: 'u' :: 'l' :: 'l' :: rest => some (.null, rest)
         | 't' :: 'r' :: 'u' :: 'e' :: rest => some (.bool true, rest)
         | 'f' :: 'a' :: 'l' :: 's' :: 'e' :: rest => some (.bool false, rest)
         | '"' :: rest => (parseStrBody rest).map (fun p => (.str ⟨p.1⟩, p.2))
         | '[' :: rest =>
             (match skipWs rest with
              | [] => none
              | c :: r2 =>
                if c = ']' then some (.arr [], r2)
                else (parseItems f (c :: r2)).map (fun p => (.arr p.1, p.2)))
         | '\x7b' :: rest =>
             (match skipWs rest with
              | [] => none
              | c :: r2 =>
                if c = '\x7d' then some (.obj [], r2)
                else (parseEntries f (c :: r2)).map (fun p => (.obj p.1, p.2)))
         | '-' :: rest =>
             (match digitSpan rest with
              | ([], _) => none
              | (ds, r2) =>
                  if floatFollows r2 then none
                  else some (.int (-(digitsVal ds : Int)), r2))
         | c :: rest =>
             if isAsciiDigitCh c then
               (match digitSpan (c :: rest) with
                | (ds, r2) =>
                    if floatFollows r2 then none
                    else some (.int (digitsVal ds), r2))
             else none
         | [] => none) := rfl

theorem parseItems_succ (f : Nat) (cs : List Char) :
    parseItems (f + 1) cs
      = (match parseVal f cs with
         | none => none
         | some (v, r) =>
           match skipWs r with
           | ',' :: r2 => (parseItems f r2).map (fun p => (v :: p.1, p.2))
           | ']' :: r2 => some ([v], r2)
           | _ => none) := rfl

theorem parseEntries_succ (f : Nat) (cs : List Char) :
    parseEntries (f + 1) cs
      = (match skipWs cs with
         | '"' :: r =>
           (match parseStrBody r with
            | none => none
            | some (key, r1) =>
              match skipWs r1 with
              | ':' :: r2 =>
                (match parseVal f r2 with
                 | none => none
                 | some (v, r3) =>
                   match skipWs r3 with
                   | ',' :: r4 => (parseEntries f r4).map (fun p => ((⟨key⟩, v) :: p.1, p.2))
                   | '\x7d' :: r4 => some ([(⟨key⟩, v)], r4)
                   | _ => none)
              | _ => none)
         | _ => none) := rfl

theorem parseVal_ws (f : Nat) (w cs : List Char) (hw : w.all isJsonWs = true) :
    parseVal f (w ++ cs) = parseVal f cs := by
  cases f with
  | zero => rfl
  | succ f => rw [parseVal_succ, parseVal_succ, skipWs_append_ws w cs hw]

theorem parseItems_ws (f : Nat) (w cs : List Char) (hw : w.all isJsonWs = true) :
    parseItems f (w ++ cs) = parseItems f cs := by
  cases f with
  | zero => rfl
  | succ f => rw [parseItems_succ, parseItems_succ, parseVal_ws f w cs hw]

theorem parseEntries_ws (f : Nat) (w cs : List Char) (hw : w.all isJsonWs = true) :
    parseEntries f (w ++ cs) = parseEntries f cs := by
  cases f with
  | zero => rfl
  | succ f => rw [parseEntries_succ, parseEntries_succ, skipWs_append_ws w cs hw]

theorem intChars_head (i : Int) :
    ∃ c t, intChars i = c :: t ∧ (c = '-' ∨ isAsciiDigitCh c = true) := by
  by_cases h : i < 0
  · exact ⟨'-', natChars i.natAbs, by simp [intChars, h], Or.inl rfl⟩
  · obtain ⟨c, t, hc, hd⟩ := natChars_head_digit i.natAbs
    exact ⟨c, t, by simp [intChars, h, hc], Or.inr hd⟩

theorem dumpJ_head (k : Nat) (v : Json) :
    ∃ c t, dumpJ k v = c :: t ∧ isJsonWs c = false ∧ c ≠ ']' ∧ c ≠ '\x7d' := by
  cases v with
  | null => exact ⟨'n', _, rfl, by decide⟩
  | bool b =>
      cases b with
      | true => exact ⟨'t', _, rfl, by decide⟩
      | false => exact ⟨'f', _, rfl, by decide⟩
  | int i =>
      obtain ⟨c, t, hc, hd⟩ := intChars_head i
      refine ⟨c, t, by simp [dumpJ, hc], ?_⟩
      rcases hd with rfl | hd
      · decide
      · have hfacts := digit_char_facts c hd
        exact ⟨hfacts.1, hfacts.2.2.2.2.2.2.2.2.1, hfacts.2.2.2.2.2.2.2.2.2.1⟩
  | str s => exact ⟨'"', _, rfl, by decide⟩
  | arr items =>
      cases items with
      | nil => exact ⟨'[', _, rfl, by decide⟩
      | cons x xs => exact ⟨'[', _, rfl, by decide⟩
  | obj entries =>
      cases entries with
      | nil => exact ⟨'\x7b', _, rfl, by decide⟩
      | cons e es => exact ⟨'\x7b', _, rfl, by decide⟩

theorem numDelim_ws_append (w : List Char) (hw : w.all isJsonWs = true)
    (c : Char) (t : List Char)
    (hc : (isAsciiDigitCh c || c == '.' || c == 'e' || c == 'E') = false) :
    numDelim (w ++ c :: t) = true := by
  cases w with
  | nil => simp [numDelim, hc]
  | cons a w2 =>
      simp only [List.all_cons, Bool.and_eq_true] at hw
      have ha := hw.1
      simp only [isJsonWs, Bool.or_eq_true, decide_eq_true_eq] at ha
      rcases ha with ((e | e) | e) | e <;> subst e <;> rfl

theorem sizeV_pos (v : Json) : 1 ≤ sizeV v := by
  cases v <;> simp [sizeV]

theorem skipWs_dumpJ (k : Nat) (v : Json) (x : List Char) :
    skipWs (dumpJ k v ++ x) = dumpJ k v ++ x := by
  obtain ⟨c, t, hc, hws, _, _⟩ := dumpJ_head k v
  rw [hc, List.cons_append, skipWs_cons_nonWs c _ hws]

theorem matchArr_cons (f : Nat) (c0 : Char) (t0 : List Char) (h : ¬c0 = ']') :
    (match c0 :: t0 with
     | [] => none
     | c :: r2 =>
       if c = ']' then some (Json.arr [], r2)
       else (parseItems f (c :: r2)).map (fun p => (Json.arr p.1, p.2)))
    = (parseItems f (c0 :: t0)).map (fun p => (Json.arr p.1, p.2)) := by
  simp [h]

theorem matchObj_cons (f : Nat) (c0 : Char) (t0 : List Char) (h : ¬c0 = '\x7d') :
    (match c0 :: t0 with
     | [] => none
     | c :: r2 =>
       if c = '\x7d' then some (Json.obj [], r2)
       else (parseEntries f (c :: r2)).map (fun p => (Json.obj p.1, p.2)))
    = (parseEntries f (c0 :: t0)).map (fun p => (Json.obj p.1, p.2)) := by
  simp [h]


theorem roundtrip_all (fuel : Nat) :
    (∀ v k rest, wfJ v = true → sizeV v ≤ fuel → numDelim rest = true →
        parseVal fuel (dumpJ k v ++ rest) = some (v, rest))
    ∧ (∀ x xs k w rest, wfItems (x :: xs) = true → sizeItems (x :: xs) ≤ fuel →
        w.all isJsonWs = true →
        parseItems fuel (dumpJ k x ++ (dumpArrTail k xs ++ (w ++ ']' :: rest)))
          = some (x :: xs, rest))
    ∧ (∀ ke es k w rest, wfEntries (ke :: es) = true → sizeEntries (ke :: es) ≤ fuel →
        w.all isJsonWs = true →
        parseEntries fuel (dumpEntry k ke ++ (dumpObjTail k es ++ (w ++ '\x7d' :: rest)))
          = some (ke :: es, rest)) := by
  induction fuel with
  | zero =>
      refine ⟨?_, ?_, ?_⟩
      · intro v k rest _ hsz _
        exact absurd hsz (by have := sizeV_pos v; omega)
      · intro x xs k w rest _ hsz _
        exact absurd hsz (by simp only [sizeItems]; omega)
      · intro ke es k w rest _ hsz _
        exact absurd hsz (by simp only [sizeEntries]; omega)
  | succ f ih =>
      obtain ⟨ihv, ihi, ihe⟩ := ih
      refine ⟨?_, ?_, ?_⟩
      · -- values
        intro v k rest hwf hsz hr
        cases v with
        | null => rfl
        | bool b => cases b <;> rfl
        | int i => exact parseVal_int f i rest hr
        | str s =>
            have hchars : ∀ c ∈ s.data, c.toNat ≤ 65535 := strOk_chars s hwf
            have harg : dumpJ k (Json.str s) ++ rest
                = '"' :: (escList s.data ++ '"' :: rest) := by
              simp [dumpJ, dumpStr]
            rw [harg]
            have step : parseVal (f + 1) ('"' :: (escList s.data ++ '"' :: rest))
                = (parseStrBody (escList s.data ++ '"' :: rest)).map
                    (fun p => (Json.str ⟨p.1⟩, p.2)) := rfl
            rw [step, parseStrBody_escList s.data hchars rest]
            rfl
        | arr items =>
            cases items with
            | nil => rfl
            | cons x xs =>
                have hwf2 : wfItems (x :: xs) = true := hwf
                have hsz2 : sizeItems (x :: xs) ≤ f := by
                  have h1 : sizeV (Json.arr (x :: xs)) = 1 + sizeItems (x :: xs) := rfl
                  omega
                have harg : dumpJ k (Json.arr (x :: xs)) ++ rest
                    = '[' :: (nlIndent (k + 2)
                        ++ (dumpJ (k + 2) x ++ (dumpArrTail (k + 2) xs
                            ++ (nlIndent k ++ ']' :: rest)))) := by
                  simp [dumpJ, List.append_assoc]
                rw [harg]
                have step : parseVal (f + 1) ('[' :: (nlIndent (k + 2)
                        ++ (dumpJ (k + 2) x ++ (dumpArrTail (k + 2) xs
                            ++ (nlIndent k ++ ']' :: rest)))))
                    = (match skipWs (nlIndent (k + 2)
                        ++ (dumpJ (k + 2) x ++ (dumpArrTail (k + 2) xs
                            ++ (nlIndent k ++ ']' :: rest)))) with
                       | [] => none
                       | c :: r2 =>
                         if c = ']' then some (Json.arr [], r2)
                         else (parseItems f (c :: r2)).map
                           (fun p => (Json.arr p.1, p.2))) := rfl
                rw [step, skipWs_append_ws _ _ (nlIndent_ws _), skipWs_dumpJ]
                obtain ⟨c0, t0, hc0, hws0, hbr0, hbc0⟩ := dumpJ_head (k + 2) x
                rw [hc0, List.cons_append, matchArr_cons f c0 _ hbr0,
                    ← List.cons_append, ← hc0,
                    ihi x xs (k + 2) (nlIndent k) rest hwf2 hsz2 (nlIndent_ws k)]
                rfl
        | obj entries =>
            cases entries with
            | nil => rfl
            | cons ke es =>
                have hwf2 : wfEntries (ke :: es) = true := hwf
                have hsz2 : sizeEntries (ke :: es) ≤ f := by
                  have h1 : sizeV (Json.obj (ke :: es)) = 1 + sizeEntries (ke :: es) := rfl
                  omega
                have harg : dumpJ k (Json.obj (ke :: es)) ++ rest
                    = '\x7b' :: (nlIndent (k + 2)
                        ++ (dumpEntry (k + 2) ke ++ (dumpObjTail (k + 2) es
                            ++ (nlIndent k ++ '\x7d' :: rest)))) := by
                  simp [dumpJ, List.append_assoc]
                rw [harg]
                have step : parseVal (f + 1) ('\x7b' :: (nlIndent (k + 2)
                        ++ (dumpEntry (k + 2) ke ++ (dumpObjTail (k + 2) es
                            ++ (nlIndent k ++ '\x7d' :: rest)))))
                    = (match skipWs (nlIndent (k + 2)
                        ++ (dumpEntry (k + 2) ke ++ (dumpObjTail (k + 2) es
                            ++ (nlIndent k ++ '\x7d' :: rest)))) with
                       | [] => none
                       | c :: r2 =>
                         if c = '\x7d' then some (Json.obj [], r2)
                         else (parseEntries f (c :: r2)).map
                           (fun p => (Json.obj p.1, p.2))) := rfl
                have hent : dumpEntry (k + 2) ke ++ (dumpObjTail (k + 2) es
                        ++ (nlIndent k ++ '\x7d' :: rest))
                    = '"' :: ((escList ke.1.data ++ '"' :: (':' :: ' ' :: dumpJ (k + 2) ke.2))
                        ++ (dumpObjTail (k + 2) es ++ (nlIndent k ++ '\x7d' :: rest))) := by
                  obtain ⟨key, v⟩ := ke
                  simp [dumpEntry, dumpStr, List.append_assoc]
                rw [step, skipWs_append_ws _ _ (nlIndent_ws _), hent,
                    skipWs_cons_nonWs _ _ (by decide),
                    matchObj_cons f '"' _ (by decide), ← hent,
                    ihe ke es (k + 2) (nlIndent k) rest hwf2 hsz2 (nlIndent_ws k)]
                rfl
      · -- array items
        intro x xs k w rest hwf hsz hws
        have hwfx : wfJ x = true := by
          have h2 := hwf
          simp only [wfItems, Bool.and_eq_true] at h2
          exact h2.1
        have hwfxs : wfItems xs = true := by
          have h2 := hwf
          simp only [wfItems, Bool.and_eq_true] at h2
          exact h2.2
        have hszx : sizeV x ≤ f := by
          simp only [sizeItems] at hsz
          omega
        rw [parseItems_succ]
        cases xs with
        | nil =>
            have hnd : numDelim (dumpArrTail k [] ++ (w ++ ']' :: rest)) = true :=
              numDelim_ws_append w hws ']' rest (by decide)
            rw [ihv x k (dumpArrTail k [] ++ (w ++ ']' :: rest)) hwfx hszx hnd]
            have hsk : skipWs (dumpArrTail k [] ++ (w ++ ']' :: rest)) = ']' :: rest := by
              show skipWs (w ++ ']' :: rest) = ']' :: rest
              rw [skipWs_append_ws _ _ hws, skipWs_cons_nonWs _ _ (by decide)]
            show (match skipWs (dumpArrTail k [] ++ (w ++ ']' :: rest)) with
                  | ',' :: r2 => (parseItems f r2).map (fun p => (x :: p.1, p.2))
                  | ']' :: r2 => some ([x], r2)
                  | _ => none) = some ([x], rest)
            rw [hsk]
            rfl
        | cons x2 xs2 =>
            have hnd : numDelim (dumpArrTail k (x2 :: xs2) ++ (w ++ ']' :: rest)) = true := rfl
            rw [ihv x k (dumpArrTail k (x2 :: xs2) ++ (w ++ ']' :: rest)) hwfx hszx hnd]
            have hshape : dumpArrTail k (x2 :: xs2) ++ (w ++ ']' :: rest)
                = ',' :: (nlIndent k ++ (dumpJ k x2 ++ (dumpArrTail k xs2 ++ (w ++ ']' :: rest)))) := by
              simp [dumpArrTail, List.append_assoc]
            show (match skipWs (dumpArrTail k (x2 :: xs2) ++ (w ++ ']' :: rest)) with
                  | ',' :: r2 => (parseItems f r2).map (fun p => (x :: p.1, p.2))
                  | ']' :: r2 => some ([x], r2)
                  | _ => none) = some (x :: x2 :: xs2, rest)
            rw [hshape, skipWs_cons_nonWs _ _ (by decide)]
            show (parseItems f (nlIndent k ++ (dumpJ k x2 ++ (dumpArrTail k xs2
                ++ (w ++ ']' :: rest))))).map (fun p => (x :: p.1, p.2))
              = some (x :: x2 :: xs2, rest)
            rw [parseItems_ws f _ _ (nlIndent_ws k),
                ihi x2 xs2 k w rest hwfxs (by simp only [sizeItems] at hsz ⊢; omega) hws]
            rfl
      · -- object entries
        intro ke es k w rest hwf hsz hws
        obtain ⟨key, v⟩ := ke
        have hk : strOk key = true := by
          have h2 := hwf
          simp only [wfEntries, Bool.and_eq_true] at h2
          exact h2.1.1
        have hwfv : wfJ v = true := by
          have h2 := hwf
          simp only [wfEntries, Bool.and_eq_true] at h2
          exact h2.1.2
        have hwfes : wfEntries es = true := by
          have h2 := hwf
          simp only [wfEntries, Bool.and_eq_true] at h2
          exact h2.2
        have hszv : sizeV v ≤ f := by
          simp only [sizeEntries] at hsz
          omega
        rw [parseEntries_succ]
        have hshape : dumpEntry k (key, v) ++ (dumpObjTail k es ++ (w ++ '\x7d' :: rest))
            = '"' :: (escList key.data ++ '"' :: (':' :: (' ' :: (dumpJ k v
                ++ (dumpObjTail k es ++ (w ++ '\x7d' :: rest)))))) := by
          simp [dumpEntry, dumpStr, List.append_assoc]
        rw [hshape, skipWs_cons_nonWs _ _ (by decide)]
        show (match parseStrBody (escList key.data ++ '"' :: (':' :: (' ' :: (dumpJ k v
                ++ (dumpObjTail k es ++ (w ++ '\x7d' :: rest)))))) with
              | none => none
              | some (key2, r1) =>
                match skipWs r1 with
                | ':' :: r2 =>
                  (match parseVal f r2 with
                   | none => none
                   | some (v2, r3) =>
                     match skipWs r3 with
                     | ',' :: r4 => (parseEntries f r4).map (fun p => ((⟨key2⟩, v2) :: p.1, p.2))
                     | '\x7d' :: r4 => some ([(⟨key2⟩, v2)], r4)
                     | _ => none)
                | _ => none)
          = some ((key, v) :: es, rest)
        rw [parseStrBody_escList key.data (strOk_chars key hk) _]
        show (match parseVal f (' ' :: (dumpJ k v ++ (dumpObjTail k es
                ++ (w ++ '\x7d' :: rest)))) with
              | none => none
              | some (v2, r3) =>
                match skipWs r3 with
                | ',' :: r4 => (parseEntries f r4).map (fun p => ((⟨key.data⟩, v2) :: p.1, p.2))
                | '\x7d' :: r4 => some ([(⟨key.data⟩, v2)], r4)
                | _ => none)
          = some ((key, v) :: es, rest)
        have hspace : (' ' :: (dumpJ k v ++ (dumpObjTail k es ++ (w ++ '\x7d' :: rest))))
            = [' '] ++ (dumpJ k v ++ (dumpObjTail k es ++ (w ++ '\x7d' :: rest))) := rfl
        rw [hspace, parseVal_ws f [' '] _ (by decide)]
        cases es with
        | nil =>
            have hnd : numDelim (dumpObjTail k [] ++ (w ++ '\x7d' :: rest)) = true :=
              numDelim_ws_append w hws '\x7d' rest (by decide)
            rw [ihv v k (dumpObjTail k [] ++ (w ++ '\x7d' :: rest)) hwfv hszv hnd]
            have hsk : skipWs (dumpObjTail k [] ++ (w ++ '\x7d' :: rest)) = '\x7d' :: rest := by
              show skipWs (w ++ '\x7d' :: rest) = '\x7d' :: rest
              rw [skipWs_append_ws _ _ hws, skipWs_cons_nonWs _ _ (by decide)]
            show (match skipWs (dumpObjTail k [] ++ (w ++ '\x7d' :: rest)) with
                  | ',' :: r4 => (parseEntries f r4).map (fun p => ((⟨key.data⟩, v) :: p.1, p.2))
                  | '\x7d' :: r4 => some ([(⟨key.data⟩, v)], r4)
                  | _ => none)
              = some ([(key, v)], rest)
            rw [hsk]
            rfl
        | cons ke2 es2 =>
            have hnd : numDelim (dumpObjTail k (ke2 :: es2) ++ (w ++ '\x7d' :: rest)) = true := rfl
            rw [ihv v k (dumpObjTail k (ke2 :: es2) ++ (w ++ '\x7d' :: rest)) hwfv hszv hnd]
            have hshape2 : dumpObjTail k (ke2 :: es2) ++ (w ++ '\x7d' :: rest)
                = ',' :: (nlIndent k ++ (dumpEntry k ke2 ++ (dumpObjTail k es2
                    ++ (w ++ '\x7d' :: rest)))) := by
              simp [dumpObjTail, List.append_assoc]
            show (match skipWs (dumpObjTail k (ke2 :: es2) ++ (w ++ '\x7d' :: rest)) with
                  | ',' :: r4 => (parseEntries f r4).map (fun p => ((⟨key.data⟩, v) :: p.1, p.2))
                  | '\x7d' :: r4 => some ([(⟨key.data⟩, v)], r4)
                  | _ => none)
              = some ((key, v) :: ke2 :: es2, rest)
            rw [hshape2, skipWs_cons_nonWs _ _ (by decide)]
            show (parseEntries f (nlIndent k ++ (dumpEntry k ke2 ++ (dumpObjTail k es2
                ++ (w ++ '\x7d' :: rest))))).map (fun p => ((⟨key.data⟩, v) :: p.1, p.2))
              = some ((key, v) :: ke2 :: es2, rest)
            rw [parseEntries_ws f _ _ (nlIndent_ws k),
                ihe ke2 es2 k w rest hwfes (by simp only [sizeEntries] at hsz ⊢; omega) hws]
            rfl

mutual
theorem sizeV_le_len : ∀ (k : Nat) (v : Json), sizeV v ≤ (dumpJ k v).length
  | _, .null => by simp [sizeV, dumpJ]
  | _, .bool b => by cases b <;> simp [sizeV, dumpJ]
  | _, .int i => by
      obtain ⟨c, t, hc, _⟩ := intChars_head i
      simp [sizeV, dumpJ, hc]
  | _, .str s => by simp [sizeV, dumpJ, dumpStr]
  | _, .arr [] => by simp [sizeV, sizeItems, dumpJ]
  | k, .arr (x :: xs) => by
      have h1 := sizeV_le_len (k + 2) x
      have h2 := sizeItems_le_len (k + 2) xs
      simp only [sizeV, sizeItems, dumpJ, List.length_cons, List.length_append,
        nlIndent, List.length_replicate]
      omega
  | _, .obj [] => by simp [sizeV, sizeEntries, dumpJ]
  | k, .obj ((key, v) :: es) => by
      have h1 := sizeV_le_len (k + 2) v
      have h2 := sizeEntries_le_len (k + 2) es
      simp only [sizeV, sizeEntries, dumpJ, dumpEntry, dumpStr, List.length_cons,
        List.length_append, nlIndent, List.length_replicate]
      omega
theorem sizeItems_le_len : ∀ (k : Nat) (xs : List Json), sizeItems xs ≤ (dumpArrTail k xs).length
  | _, [] => by simp [sizeItems, dumpArrTail]
  | k, x :: xs => by
      have h1 := sizeV_le_len k x
      have h2 := sizeItems_le_len k xs
      simp only [sizeItems, dumpArrTail, List.length_cons, List.length_append,
        nlIndent, List.length_replicate]
      omega
theorem sizeEntries_le_len : ∀ (k : Nat) (es : List (String × Json)),
    sizeEntries es ≤ (dumpObjTail k es).length
  | _, [] => by simp [sizeEntries, dumpObjTail]
  | k, (key, v) :: es => by
      have h1 := sizeV_le_len k v
      have h2 := sizeEntries_le_len k es
      simp only [sizeEntries, dumpObjTail, dumpEntry, dumpStr, List.length_cons,
        List.length_append, nlIndent, List.length_replicate]
      omega
end

theorem json_load_dump (v : Json) (h : wfJ v = true) :
    json_load (json_dump v) = some v := by
  have hle := sizeV_le_len 0 v
  have hrt := (roundtrip_all ((dumpJ 0 v).length + 1)).1 v 0 [] h (by omega) rfl
  rw [List.append_nil] at hrt
  show (match parseVal ((json_dump v).data.length + 1) (json_dump v).data with
        | some (j, rest) => if skipWs rest = [] then some j else none
        | none => none) = some v
  rw [show (json_dump v).data = dumpJ 0 v from rfl, hrt]
  rfl

/-! ## Characterising `validate_config_file` -/

/-- The report one loop iteration contributes: nothing for a skipped `None`
document or a passing one, and the single raised error tagged with the
1-based index otherwise. -/
def docReport (store : List (String × Json)) (fuel : Nat) (schema : Json)
    (p : Nat × Option Json) : Option (Nat × ValidationError) :=
  match p.2 with
  | none => none
  | some config =>
      (validator_validate store fuel schema config).map (fun e => (p.1 + 1, e))

theorem docStep_foldl (store : List (String × Json)) (fuel : Nat) (schema : Json) :
    ∀ (l : List (Nat × Option Json)) (acc : List (Nat × ValidationError)) (b : Bool),
      l.foldl (docStep store fuel schema) (acc, b)
        = (acc ++ l.filterMap (docReport store fuel schema),
           b && (l.filterMap (docReport store fuel schema)).isEmpty) := by
  intro l
  induction l with
  | nil => intro acc b; simp
  | cons p l ih =>
      intro acc b
      rcases p with ⟨i, d⟩
      cases hd : d with
      | none =>
          have h1 : docStep store fuel schema (acc, b) (i, none) = (acc, b) := rfl
          have h2 : docReport store fuel schema (i, none) = none := rfl
          rw [List.foldl_cons, h1, List.filterMap_cons, h2, ih]
      | some config =>
          cases hv : validator_validate store fuel schema config with
          | none =>
              have h1 : docStep store fuel schema (acc, b) (i, some config) = (acc, b) := by
                simp [docStep, hv]
              have h2 : docReport store fuel schema (i, some config) = none := by
                simp [docReport, hv]
              rw [List.foldl_cons, h1, List.filterMap_cons, h2, ih]
          | some e =>
              have h1 : docStep store fuel schema (acc, b) (i, some config)
                  = (acc ++ [(i + 1, e)], false) := by
                simp [docStep, hv]
              have h2 : docReport store fuel schema (i, some config) = some (i + 1, e) := by
                simp [docReport, hv]
              rw [List.foldl_cons, h1, List.filterMap_cons, h2, ih]
              simp

theorem vcf_ok_eq (documents : List (Option Json)) (shared schema : Json) (fuel : Nat) :
    validate_config_file (.ok documents) (.ok shared) schema fuel
      = (if (documents.enum.filterMap
              (docReport [("shared-definitions.json", shared)] fuel schema)).isEmpty
         then ⟨false,
               documents.enum.filterMap
                 (docReport [("shared-definitions.json", shared)] fuel schema),
               true, some (documents.filterMap id).length⟩
         else ⟨false,
               documents.enum.filterMap
                 (docReport [("shared-definitions.json", shared)] fuel schema),
               false, none⟩) := by
  show (if (documents.enum.foldl
            (docStep [("shared-definitions.json", shared)] fuel schema) ([], true)).2
        then (⟨false,
               (documents.enum.foldl
                 (docStep [("shared-definitions.json", shared)] fuel schema) ([], true)).1,
               true, some (documents.filterMap id).length⟩ : FileResult)
        else ⟨false,
              (documents.enum.foldl
                (docStep [("shared-definitions.json", shared)] fuel schema) ([], true)).1,
              false, none⟩) = _
  rw [docStep_foldl]
  cases hE : (documents.enum.filterMap
      (docReport [("shared-definitions.json", shared)] fuel schema)).isEmpty <;>
    simp [hE]

theorem vcf_docReports (documents : List (Option Json)) (shared schema : Json) (fuel : Nat) :
    (validate_config_file (.ok documents) (.ok shared) schema fuel).docReports
      = documents.enum.filterMap
          (docReport [("shared-definitions.json", shared)] fuel schema) := by
  rw [vcf_ok_eq]
  cases hE : (documents.enum.filterMap
      (docReport [("shared-definitions.json", shared)] fuel schema)).isEmpty <;>
    simp [hE]

theorem vcf_readError (documents : List (Option Json)) (shared schema : Json) (fuel : Nat) :
    (validate_config_file (.ok documents) (.ok shared) schema fuel).readError = false := by
  rw [vcf_ok_eq]
  cases hE : (documents.enum.filterMap
      (docReport [("shared-definitions.json", shared)] fuel schema)).isEmpty <;>
    simp [hE]

theorem vcf_valid (documents : List (Option Json)) (shared schema : Json) (fuel : Nat) :
    (validate_config_file (.ok documents) (.ok shared) schema fuel).valid
      = (documents.enum.filterMap
          (docReport [("shared-definitions.json", shared)] fuel schema)).isEmpty := by
  rw [vcf_ok_eq]
  cases hE : (documents.enum.filterMap
      (docReport [("shared-definitions.json", shared)] fuel schema)).isEmpty <;>
    simp [hE]

/-! ## Index lemmas: reports carry the 1-based position of their document -/

theorem docReport_some_shape (store : List (String × Json)) (fuel : Nat) (schema : Json)
    (i : Nat) (d : Option Json) (q : Nat × ValidationError)
    (h : docReport store fuel schema (i, d) = some q) :
    q.1 = i + 1
      ∧ ∃ config, d = some config
          ∧ validator_validate store fuel schema config = some q.2 := by
  cases d with
  | none => simp [docReport] at h
  | some config =>
      simp only [docReport] at h
      cases hv : validator_validate store fuel schema config with
      | none => rw [hv] at h; simp at h
      | some e =>
          rw [hv] at h
          simp only [Option.map_some'] at h
          injection h with h2
          subst h2
          exact ⟨rfl, config, rfl, hv⟩

theorem filterMap_docReport_ge (store : List (String × Json)) (fuel : Nat) (schema : Json) :
    ∀ (l : List (Option Json)) (m : Nat) (q : Nat × ValidationError),
      q ∈ (List.enumFrom m l).filterMap (docReport store fuel schema) → m + 1 ≤ q.1 := by
  intro l
  induction l with
  | nil => intro m q hq; simp [List.enumFrom] at hq
  | cons d l ih =>
      intro m q hq
      rw [List.enumFrom_cons, List.filterMap_cons] at hq
      cases hd : docReport store fuel schema (m, d) with
      | none =>
          rw [hd] at hq
          have := ih (m + 1) q hq
          omega
      | some q0 =>
          rw [hd] at hq
          rcases List.mem_cons.mp hq with rfl | hq2
          · have := (docReport_some_shape store fuel schema m d q hd).1
            omega
          · have := ih (m + 1) q hq2
            omega

theorem mem_filterMap_docReport (store : List (String × Json)) (fuel : Nat) (schema : Json) :
    ∀ (l : List (Option Json)) (m i : Nat) (c : Json) (e : ValidationError),
      l.get? i = some (some c) →
      ((m + i + 1, e) ∈ (List.enumFrom m l).filterMap (docReport store fuel schema)
        ↔ validator_validate store fuel schema c = some e) := by
  intro l
  induction l with
  | nil => intro m i c e hg; simp at hg
  | cons d l ih =>
      intro m i c e hg
      rw [List.enumFrom_cons, List.filterMap_cons]
      cases i with
      | zero =>
          simp only [List.get?] at hg
          injection hg with hg2
          subst hg2
          constructor
          · intro hmem
            cases hd : docReport store fuel schema (m, some c) with
            | none =>
                rw [hd] at hmem
                have := filterMap_docReport_ge store fuel schema l (m + 1) _ hmem
                simp at this
            | some q0 =>
                rw [hd] at hmem
                rcases List.mem_cons.mp hmem with heq | hmem2
                · obtain ⟨h1, config, hc2, hv⟩ :=
                    docReport_some_shape store fuel schema m (some c) q0 hd
                  injection hc2 with hc3
                  subst hc3
                  rw [← heq] at hv
                  exact hv
                · have := filterMap_docReport_ge store fuel schema l (m + 1) _ hmem2
                  simp at this
          · intro hv
            have hd : docReport store fuel schema (m, some c) = some (m + 1, e) := by
              simp [docReport, hv]
            rw [hd]
            have harith : m + 0 + 1 = m + 1 := by omega
            rw [harith]
            exact List.mem_cons_self _ _
      | succ i2 =>
          simp only [List.get?] at hg
          have iheq := ih (m + 1) i2 c e hg
          have harith : m + (i2 + 1) + 1 = (m + 1) + i2 + 1 := by omega
          rw [harith]
          cases hd : docReport store fuel schema (m, d) with
          | none => exact iheq
          | some q0 =>
              have hq1 := (docReport_some_shape store fuel schema m d q0 hd).1
              constructor
              · intro hmem
                rcases List.mem_cons.mp hmem with heq | hmem2
                · exfalso
                  have h2 := congrArg Prod.fst heq
                  simp at h2
                  omega
                · exact iheq.mp hmem2
              · intro hv
                exact List.mem_cons_of_mem _ (iheq.mpr hv)

theorem countP_filterMap_docReport (store : List (String × Json)) (fuel : Nat) (schema : Json) :
    ∀ (l : List (Option Json)) (m i : Nat),
      ((List.enumFrom m l).filterMap (docReport store fuel schema)).countP
          (fun q => q.1 == m + i + 1)
        = (match l.get? i with
           | some (some c) =>
               if (validator_validate store fuel schema c).isSome then 1 else 0
           | _ => 0) := by
  intro l
  induction l with
  | nil => intro m i; simp [List.enumFrom]
  | cons d l ih =>
      intro m i
      rw [List.enumFrom_cons, List.filterMap_cons]
      cases i with
      | zero =>
          have htail : ((List.enumFrom (m + 1) l).filterMap
              (docReport store fuel schema)).countP (fun q => q.1 == m + 0 + 1) = 0 := by
            rw [List.countP_eq_zero]
            intro q hq
            have := filterMap_docReport_ge store fuel schema l (m + 1) q hq
            simp only [beq_iff_eq]
            omega
          cases hd0 : d with
          | none =>
              have hd : docReport store fuel schema (m, none) = none := rfl
              rw [hd]
              simp only [List.get?]
              rw [htail]
          | some c =>
              cases hv : validator_validate store fuel schema c with
              | none =>
                  have hd : docReport store fuel schema (m, some c) = none := by
                    simp [docReport, hv]
                  rw [hd]
                  simp only [List.get?, hv]
                  rw [htail]
                  simp
              | some e =>
                  have hd : docReport store fuel schema (m, some c) = some (m + 1, e) := by
                    simp [docReport, hv]
                  rw [hd, List.countP_cons, htail]
                  simp only [List.get?, hv]
                  simp
      | succ i2 =>
          have iheq := ih (m + 1) i2
          have harith : m + (i2 + 1) + 1 = (m + 1) + i2 + 1 := by omega
          cases hd : docReport store fuel schema (m, d) with
          | none =>
              simp only [List.get?]
              rw [harith, iheq]
          | some q0 =>
              have hq1 := (docReport_some_shape store fuel schema m d q0 hd).1
              rw [List.countP_cons]
              have hzero : (q0.1 == m + (i2 + 1) + 1) = false := by
                simp only [beq_eq_false_iff_ne]
                omega
              rw [hzero]
              simp only [List.get?]
              rw [harith, iheq]
              simp

theorem filterMap_docReport_shift (store : List (String × Json)) (fuel : Nat) (schema : Json) :
    ∀ (l : List (Option Json)) (m : Nat),
      (List.enumFrom (m + 1) l).filterMap (docReport store fuel schema)
        = ((List.enumFrom m l).filterMap (docReport store fuel schema)).map
            (fun q => (q.1 + 1, q.2)) := by
  intro l
  induction l with
  | nil => intro m; simp [List.enumFrom]
  | cons d l ih =>
      intro m
      rw [List.enumFrom_cons, List.enumFrom_cons, List.filterMap_cons, List.filterMap_cons]
      cases d with
      | none =>
          have h1 : docReport store fuel schema (m + 1, none) = none := rfl
          have h2 : docReport store fuel schema (m, none) = none := rfl
          rw [h1, h2, ih (m + 1)]
      | some c =>
          cases hv : validator_validate store fuel schema c with
          | none =>
              have h1 : docReport store fuel schema (m + 1, some c) = none := by
                simp [docReport, hv]
              have h2 : docReport store fuel schema (m, some c) = none := by
                simp [docReport, hv]
              rw [h1, h2, ih (m + 1)]
          | some e =>
              have h1 : docReport store fuel schema (m + 1, some c) = some (m + 2, e) := by
                simp [docReport, hv]
              have h2 : docReport store fuel schema (m, some c) = some (m + 1, e) := by
                simp [docReport, hv]
              rw [h1, h2, ih (m + 1), List.map_cons]

theorem filterMap_docReport_all_none (store : List (String × Json)) (fuel : Nat) (schema : Json) :
    ∀ (l : List (Option Json)) (m : Nat), (∀ d ∈ l, d = none) →
      (List.enumFrom m l).filterMap (docReport store fuel schema) = [] := by
  intro l
  induction l with
  | nil => intro m _; simp [List.enumFrom]
  | cons d l ih =>
      intro m hall
      have hd : d = none := hall d (List.mem_cons_self _ _)
      subst hd
      rw [List.enumFrom_cons, List.filterMap_cons]
      have h1 : docReport store fuel schema (m, none) = none := rfl
      rw [h1]
      exact ih (m + 1) (fun x hx => hall x (List.mem_cons_of_mem _ hx))

theorem filterMap_id_all_none (l : List (Option Json)) (h : ∀ d ∈ l, d = none) :
    l.filterMap id = [] := by
  induction l with
  | nil => rfl
  | cons d l ih =>
      have hd := h d (List.mem_cons_self _ _)
      subst hd
      rw [List.filterMap_cons]
      exact ih (fun x hx => h x (List.mem_cons_of_mem _ hx))


/-! ## The claims -/

/-- Enumeration of a list is enumeration starting at zero. -/
theorem enum_eq {α : Type} (l : List α) : l.enum = List.enumFrom 0 l := rfl

/-- C6: the process exits 0 on every completed run, even when some or all
discovered files are invalid; it exits 1 exactly when the schema cannot be
loaded, the target directory does not exist, or no candidate configuration
files are found. -/
theorem c6_exit_codes (env : Env) (fuel : Nat) :
    (main_run env fuel = RunOutcome.exit1 ↔
      (load_schema env.fs env.schema_path env.schema_type = Except.error ()
        ∨ env.dirExists = false ∨ env.files = []))
    ∧ (main_run env fuel = RunOutcome.exit1
        ∨ ∃ v, main_run env fuel = RunOutcome.completed v env.files.length) := by
  cases hl : load_schema env.fs env.schema_path env.schema_type with
  | error u =>
      cases u
      have hm : main_run env fuel = RunOutcome.exit1 := by
        unfold main_run
        rw [hl]
      exact ⟨⟨fun _ => Or.inl rfl, fun _ => hm⟩, Or.inl hm⟩
  | ok schema =>
      have hm : main_run env fuel
          = (if env.dirExists = false then RunOutcome.exit1
             else if env.files.isEmpty then RunOutcome.exit1
             else RunOutcome.completed
               ((env.files.map
                 (fun f => validate_config_file f env.sharedDefs schema fuel)).countP
                   (fun r => r.valid)) env.files.length) := by
        unfold main_run
        rw [hl]
      by_cases hd : env.dirExists = false
      · rw [if_pos hd] at hm
        exact ⟨⟨fun _ => Or.inr (Or.inl hd), fun _ => hm⟩, Or.inl hm⟩
      · rw [if_neg hd] at hm
        by_cases hf : env.files.isEmpty = true
        · rw [if_pos hf] at hm
          have hfe : env.files = [] := by
            cases henv : env.files with
            | nil => rfl
            | cons a l => rw [henv] at hf; exact absurd hf (by simp)
          exact ⟨⟨fun _ => Or.inr (Or.inr hfe), fun _ => hm⟩, Or.inl hm⟩
        · rw [if_neg hf] at hm
          refine ⟨⟨fun hcontra => ?_, fun habs => ?_⟩, Or.inr ⟨_, hm⟩⟩
          · rw [hm] at hcontra
            exact RunOutcome.noConfusion hcontra
          · rcases habs with h1 | h2 | h3
            · exact Except.noConfusion h1
            · exact absurd h2 hd
            · rw [h3] at hf
              exact absurd rfl hf

/-- Environment for the C6 witness: a well-formed run whose single file is
invalid (missing `plugin`), completing with exit code 0 and zero valid files. -/
def envC6 : Env :=
  ⟨fun p => if p = "current-format-schema.json"
      then some "\x7b\"required\": [\"plugin\"]\x7d" else none,
   none, "current", true, [Except.ok [some (Json.obj [])]], Except.ok (Json.obj [])⟩

/-- C6 witness: on `envC6` the run completes with 0/1 valid and does not exit 1. -/
theorem c6_exit_codes_witness :
    main_run envC6 1 = RunOutcome.completed 0 1 ∧ main_run envC6 1 ≠ RunOutcome.exit1 := by
  refine ⟨rfl, fun h => ?_⟩
  rcases (c6_exit_codes envC6 1).1.mp h with h1 | h2 | h3
  · have h4 : load_schema envC6.fs envC6.schema_path envC6.schema_type
        = Except.ok (Json.obj [("required", Json.arr [Json.str "plugin"])]) := rfl
    rw [h4] at h1
    exact Except.noConfusion h1
  · exact Bool.noConfusion h2
  · exact List.noConfusion h3

/-- C10: a file whose document stream fails to parse is reported as a
read/parse error with no per-document validation at all (the whole stream is
parsed before the loop starts, so even well-formed leading documents are not
validated), it is counted invalid, and the run continues over every
discovered file. -/
theorem c10_parse_error_file (msg : String) (sharedDefs : Except String Json)
    (schema : Json) (fuel : Nat) (env : Env)
    (hload : ∃ s, load_schema env.fs env.schema_path env.schema_type = Except.ok s)
    (hdir : env.dirExists = true) (hfiles : env.files ≠ []) :
    validate_config_file (Except.error msg) sharedDefs schema fuel
        = ⟨true, [], false, none⟩
    ∧ ∃ v, main_run env fuel = RunOutcome.completed v env.files.length := by
  obtain ⟨s, hs⟩ := hload
  refine ⟨rfl,
    (env.files.map (fun f => validate_config_file f env.sharedDefs s fuel)).countP
      (fun r => r.valid), ?_⟩
  unfold main_run
  rw [hs]
  show (if env.dirExists = false then RunOutcome.exit1
        else if env.files.isEmpty then RunOutcome.exit1
        else RunOutcome.completed
          ((env.files.map (fun f => validate_config_file f env.sharedDefs s fuel)).countP
            (fun r => r.valid)) env.files.length) = _
  rw [if_neg (by simp [hdir]), if_neg (by simp [List.isEmpty_iff, hfiles])]

/-- Environment for the C10 witness: two files, the first with a parse
error, the second well formed; the run still completes over both. -/
def envC10 : Env :=
  ⟨fun p => if p = "current-format-schema.json" then some "\x7b\x7d" else none,
   none, "current", true,
   [Except.error "while parsing a block mapping", Except.ok [some (Json.obj [])]],
   Except.ok (Json.obj [])⟩

/-- C10 witness: the parse-error file is a read error, counted invalid, and
the run over `envC10` completes having processed both files. -/
theorem c10_parse_error_file_witness :
    validate_config_file (Except.error "while parsing a block mapping")
        (Except.ok (Json.obj [])) (Json.obj []) 1
      = ⟨true, [], false, none⟩
    ∧ ∃ v, main_run envC10 1 = RunOutcome.completed v envC10.files.length := by
  exact c10_parse_error_file "while parsing a block mapping" (Except.ok (Json.obj []))
    (Json.obj []) 1 envC10 ⟨Json.obj [], rfl⟩ rfl (by simp [envC10])

/-- Environment for the C2 counterexample: the shared-definitions file is
missing, yet the schema loads, the directory exists and two config files are
discovered. -/
def envC2 : Env :=
  ⟨fun p => if p = "current-format-schema.json" then some "\x7b\x7d" else none,
   none, "current", true,
   [Except.ok [some (Json.obj [])], Except.ok [some (Json.obj [])]],
   Except.error "No such file or directory: shared-definitions.json"⟩

/-- C2 counterexample: with `shared-definitions.json` missing the run does
NOT abort before any configuration file is checked — it completes normally
(exit code 0) after processing both files, refuting the claimed fatal
LoadError; the schema store is rebuilt (and fails) inside every per-file
validation rather than once before the first file. -/
theorem c2_counterexample :
    envC2.sharedDefs = Except.error "No such file or directory: shared-definitions.json"
    ∧ main_run envC2 1 = RunOutcome.completed 0 2
    ∧ main_run envC2 1 ≠ RunOutcome.exit1 := by
  refine ⟨rfl, rfl, fun h => ?_⟩
  rw [show main_run envC2 1 = RunOutcome.completed 0 2 from rfl] at h
  exact RunOutcome.noConfusion h

/-- C2 amended: the shared-definitions schema is loaded inside every
per-file validation, not once per run; when it is missing or unparsable the
failure is per-file and non-fatal — every file is reported as a read/parse
error with no document validated and counted invalid, and the run completes
normally with zero valid files. -/
theorem c2_amended (env : Env) (fuel : Nat) (msg : String)
    (hshared : env.sharedDefs = Except.error msg)
    (hload : ∃ s, load_schema env.fs env.schema_path env.schema_type = Except.ok s)
    (hdir : env.dirExists = true) (hfiles : env.files ≠ []) :
    (∀ schema : Json, ∀ f ∈ env.files,
        (validate_config_file f env.sharedDefs schema fuel).valid = false
        ∧ (validate_config_file f env.sharedDefs schema fuel).docReports = [])
    ∧ main_run env fuel = RunOutcome.completed 0 env.files.length := by
  have hfile : ∀ schema : Json, ∀ f ∈ env.files,
      (validate_config_file f env.sharedDefs schema fuel).valid = false
      ∧ (validate_config_file f env.sharedDefs schema fuel).docReports = [] := by
    intro schema f _
    rw [hshared]
    cases f with
    | error m => exact ⟨rfl, rfl⟩
    | ok docs => exact ⟨rfl, rfl⟩
  refine ⟨hfile, ?_⟩
  obtain ⟨s, hs⟩ := hload
  unfold main_run
  rw [hs]
  show (if env.dirExists = false then RunOutcome.exit1
        else if env.files.isEmpty then RunOutcome.exit1
        else RunOutcome.completed
          ((env.files.map (fun f => validate_config_file f env.sharedDefs s fuel)).countP
            (fun r => r.valid)) env.files.length) = _
  rw [if_neg (by simp [hdir]), if_neg (by simp [List.isEmpty_iff, hfiles])]
  congr 1
  rw [List.countP_eq_zero]
  intro r hr
  rw [List.mem_map] at hr
  obtain ⟨f, hf, rfl⟩ := hr
  simp [(hfile s f hf).1]

/-- C2 amended witness: on `envC2` the run completes with zero valid files
and the first file is invalid with no document report. -/
theorem c2_amended_witness :
    main_run envC2 1 = RunOutcome.completed 0 2
    ∧ (validate_config_file (Except.ok [some (Json.obj [])]) envC2.sharedDefs
        (Json.obj []) 1).valid = false := by
  have h := c2_amended envC2 1 "No such file or directory: shared-definitions.json"
    rfl ⟨Json.obj [], rfl⟩ rfl (by simp [envC2])
  exact ⟨h.2, (h.1 (Json.obj []) (Except.ok [some (Json.obj [])])
    (List.mem_cons_self _ _)).1⟩

/-- Schema for the C1 counterexample: two required properties. -/
def schemaC1 : Json :=
  Json.obj [("type", Json.str "object"),
            ("required", Json.arr [Json.str "plugin", Json.str "resources"])]

/-- C1 counterexample: the document `{}` has two independent structural
violations against `schemaC1` (the evaluator reports both), yet the result
sequence for that document contains exactly one error — `validator.validate`
raises only the first violation, so validation of a document stops at the
first violation. -/
theorem c1_counterexample :
    (evalErrors [("shared-definitions.json", Json.obj [])] 1 schemaC1 (Json.obj [])).length = 2
    ∧ ((validate_config_file (Except.ok [some (Json.obj [])])
          (Except.ok (Json.obj [])) schemaC1 1).docReports).length = 1 :=
  ⟨rfl, rfl⟩

/-- C1 amended: for every checked document the result contains at most one
ValidationError — precisely the first violation of the evaluator's sequence;
later violations of the same document are not reported (validation does
continue with subsequent documents). -/
theorem c1_amended (documents : List (Option Json)) (shared schema : Json)
    (fuel i : Nat) (c : Json) (e : ValidationError) (tl : List ValidationError)
    (hdoc : documents.get? i = some (some c))
    (herrs : evalErrors [("shared-definitions.json", shared)] fuel schema c = e :: tl) :
    (i + 1, e) ∈ (validate_config_file (Except.ok documents)
        (Except.ok shared) schema fuel).docReports
    ∧ (validate_config_file (Except.ok documents)
        (Except.ok shared) schema fuel).docReports.countP
          (fun q => q.1 == i + 1) = 1 := by
  have hval : validator_validate [("shared-definitions.json", shared)] fuel schema c
      = some e := by
    unfold validator_validate
    rw [herrs]
    rfl
  have harith : 0 + i + 1 = i + 1 := by omega
  constructor
  · rw [vcf_docReports, enum_eq]
    have hmem := (mem_filterMap_docReport [("shared-definitions.json", shared)]
      fuel schema documents 0 i c e hdoc).mpr hval
    rw [harith] at hmem
    exact hmem
  · rw [vcf_docReports, enum_eq]
    have hcnt := countP_filterMap_docReport [("shared-definitions.json", shared)]
      fuel schema documents 0 i
    rw [hdoc] at hcnt
    rw [harith] at hcnt
    rw [hcnt]
    show (if (validator_validate [("shared-definitions.json", shared)]
        fuel schema c).isSome = true then 1 else 0) = 1
    rw [hval]
    rfl

/-- C1 amended witness: the first missing-required-property error is
reported for document 1 of a single-document file, and exactly one report
carries index 1 although the evaluator found two violations. -/
theorem c1_amended_witness :
    (1, (⟨[], "plugin is a required property"⟩ : ValidationError))
      ∈ (validate_config_file (Except.ok [some (Json.obj [])])
          (Except.ok (Json.obj [])) schemaC1 1).docReports
    ∧ (validate_config_file (Except.ok [some (Json.obj [])])
        (Except.ok (Json.obj [])) schemaC1 1).docReports.countP
          (fun q => q.1 == 1) = 1 := by
  have h := c1_amended [some (Json.obj [])] (Json.obj []) schemaC1 1 0 (Json.obj [])
    ⟨[], "plugin is a required property"⟩ [⟨[], "resources is a required property"⟩]
    rfl rfl
  exact ⟨h.1, h.2⟩

/-- C4: documents of a multi-document file are validated independently — for
any document at 0-based position `j`, the report list contains `(j + 1, e)`
exactly when validating that document alone raises `e`, regardless of the
outcomes of every other document; reports are tagged with the 1-based
document index. -/
theorem c4_documents_independent (documents : List (Option Json)) (shared schema : Json)
    (fuel j : Nat) (c : Json) (e : ValidationError)
    (hdoc : documents.get? j = some (some c)) :
    ((j + 1, e) ∈ (validate_config_file (Except.ok documents)
        (Except.ok shared) schema fuel).docReports
      ↔ validator_validate [("shared-definitions.json", shared)] fuel schema c = some e) := by
  rw [vcf_docReports, enum_eq]
  have h := mem_filterMap_docReport [("shared-definitions.json", shared)]
    fuel schema documents 0 j c e hdoc
  have harith : 0 + j + 1 = j + 1 := by omega
  rw [harith] at h
  exact h

/-- Schema for the C4 witness: `plugin` required. -/
def schemaC4 : Json := Json.obj [("required", Json.arr [Json.str "plugin"])]

/-- C4 witness: in a two-document file whose first document already fails,
the second document's failure is still validated and reported as document 2. -/
theorem c4_documents_independent_witness :
    (2, (⟨[], "plugin is a required property"⟩ : ValidationError))
      ∈ (validate_config_file (Except.ok [some (Json.obj []), some (Json.obj [])])
          (Except.ok (Json.obj [])) schemaC4 2).docReports :=
  (c4_documents_independent [some (Json.obj []), some (Json.obj [])] (Json.obj [])
    schemaC4 2 1 (Json.obj []) ⟨[], "plugin is a required property"⟩ rfl).mpr rfl

/-- C5: empty document segments (parsed to `None`) are retained at their
position — prepending one shifts every report's 1-based index by one and
changes nothing else — and are skipped during validation, so a file whose
documents are all `None` has zero reportable documents and is reported valid
with no errors and no read/parse failure. -/
theorem c5_empty_documents (documents : List (Option Json)) (shared schema : Json)
    (fuel : Nat) :
    ((∀ d ∈ documents, d = none) →
      validate_config_file (Except.ok documents) (Except.ok shared) schema fuel
        = ⟨false, [], true, some 0⟩)
    ∧ (validate_config_file (Except.ok (none :: documents))
          (Except.ok shared) schema fuel).docReports
        = ((validate_config_file (Except.ok documents)
            (Except.ok shared) schema fuel).docReports).map (fun q => (q.1 + 1, q.2)) := by
  constructor
  · intro hall
    rw [vcf_ok_eq, enum_eq,
        filterMap_docReport_all_none [("shared-definitions.json", shared)] fuel schema
          documents 0 hall,
        filterMap_id_all_none documents hall]
    simp
  · rw [vcf_docReports, vcf_docReports, enum_eq, enum_eq, List.enumFrom_cons,
        List.filterMap_cons]
    have h1 : docReport [("shared-definitions.json", shared)] fuel schema (0, none)
        = none := rfl
    rw [h1]
    exact filterMap_docReport_shift [("shared-definitions.json", shared)] fuel schema
      documents 0

/-- C5 witness: a file of two whitespace-only segments is valid, with no
errors and zero reportable documents. -/
theorem c5_empty_documents_witness :
    validate_config_file (Except.ok [none, none]) (Except.ok (Json.obj []))
        (Json.obj []) 1
      = ⟨false, [], true, some 0⟩ :=
  (c5_empty_documents [none, none] (Json.obj []) (Json.obj []) 1).1 (by simp)

/-- C9: any document slot that parsed to `null` — whether from a
whitespace-only segment or an explicit `null`/`~` scalar — is skipped: no
report ever carries its index, a file of only `null` documents is valid, and
the skip matters because validating `null` against an object-typed schema
would have produced a type error. -/
theorem c9_null_documents_skipped (documents : List (Option Json)) (shared schema : Json)
    (fuel i : Nat) (hnull : documents.get? i = some none) :
    (∀ e : ValidationError,
        (i + 1, e) ∉ (validate_config_file (Except.ok documents)
          (Except.ok shared) schema fuel).docReports)
    ∧ ((∀ d ∈ documents, d = none) →
        (validate_config_file (Except.ok documents)
          (Except.ok shared) schema fuel).valid = true)
    ∧ evalErrors [("shared-definitions.json", shared)] (fuel + 1)
        (Json.obj [("type", Json.str "object")]) Json.null
        = [⟨[], "is not of type object"⟩] := by
  refine ⟨?_, ?_, rfl⟩
  · intro e hmem
    rw [vcf_docReports, enum_eq] at hmem
    have hcnt := countP_filterMap_docReport [("shared-definitions.json", shared)]
      fuel schema documents 0 i
    rw [hnull] at hcnt
    have harith : 0 + i + 1 = i + 1 := by omega
    rw [harith] at hcnt
    have h0 := List.countP_eq_zero.mp hcnt _ hmem
    simp at h0
  · intro hall
    rw [vcf_valid, enum_eq,
        filterMap_docReport_all_none [("shared-definitions.json", shared)] fuel schema
          documents 0 hall]
    rfl

/-- C9 witness: a file whose only document is an explicit `null` is skipped
(no report for index 1) and the file is valid; the schema
`{"type": "object"}` would have rejected `null` had it been validated. -/
theorem c9_null_documents_skipped_witness :
    (∀ e : ValidationError,
        (1, e) ∉ (validate_config_file (Except.ok [none])
          (Except.ok (Json.obj [])) (Json.obj [("type", Json.str "object")]) 1).docReports)
    ∧ (validate_config_file (Except.ok [none]) (Except.ok (Json.obj []))
        (Json.obj [("type", Json.str "object")]) 1).valid = true := by
  have h := c9_null_documents_skipped [none] (Json.obj [])
    (Json.obj [("type", Json.str "object")]) 0 0 rfl
  exact ⟨h.1, h.2.1 (by simp)⟩

/-- C3: a schema reference whose key is absent from the schema store yields
a reported "reference not found" error for the referencing node: the
evaluator's error list for a document exercising the reference is exactly
that diagnostic, the file is reported invalid with that error tagged to the
document — not a crash (the validation functions are total and the outer
handler converts any raised exception into a per-file report) and not a
silent pass. -/
theorem c3_unresolved_reference (shared doc : Json) (r : String) (fuel : Nat)
    (hscheme : (urlparse r).scheme = "")
    (habsent : storeGet [("shared-definitions.json", shared)]
        (lstripSlash (urlparse r).path) = none) :
    evalErrors [("shared-definitions.json", shared)] (fuel + 1)
        (Json.obj [("$ref", Json.str r)]) doc
      = [⟨[], "reference not found: " ++ r⟩]
    ∧ (validate_config_file (Except.ok [some doc]) (Except.ok shared)
        (Json.obj [("$ref", Json.str r)]) (fuel + 1)).valid = false
    ∧ (validate_config_file (Except.ok [some doc]) (Except.ok shared)
        (Json.obj [("$ref", Json.str r)]) (fuel + 1)).docReports
      = [(1, ⟨[], "reference not found: " ++ r⟩)]
    ∧ (validate_config_file (Except.ok [some doc]) (Except.ok shared)
        (Json.obj [("$ref", Json.str r)]) (fuel + 1)).readError = false := by
  have hhandler : custom_uri_handler [("shared-definitions.json", shared)] r = none := by
    show (if (urlparse r).scheme = ""
          then storeGet [("shared-definitions.json", shared)]
            (lstripSlash (urlparse r).path)
          else none) = none
    rw [if_pos hscheme]
    exact habsent
  have heval : evalErrors [("shared-definitions.json", shared)] (fuel + 1)
      (Json.obj [("$ref", Json.str r)]) doc = [⟨[], "reference not found: " ++ r⟩] := by
    show (match custom_uri_handler [("shared-definitions.json", shared)] r with
          | none => [(⟨[], "reference not found: " ++ r⟩ : ValidationError)]
          | some resolved =>
              evalErrors [("shared-definitions.json", shared)] fuel resolved doc)
        = [⟨[], "reference not found: " ++ r⟩]
    rw [hhandler]
  have hval : validator_validate [("shared-definitions.json", shared)] (fuel + 1)
      (Json.obj [("$ref", Json.str r)]) doc
      = some ⟨[], "reference not found: " ++ r⟩ := by
    unfold validator_validate
    rw [heval]
    rfl
  have hfm : (List.enumFrom 0 [some doc]).filterMap
      (docReport [("shared-definitions.json", shared)] (fuel + 1)
        (Json.obj [("$ref", Json.str r)]))
      = [(1, ⟨[], "reference not found: " ++ r⟩)] := by
    rw [List.enumFrom_cons, List.filterMap_cons]
    have hd : docReport [("shared-definitions.json", shared)] (fuel + 1)
        (Json.obj [("$ref", Json.str r)]) (0, some doc)
        = some (1, ⟨[], "reference not found: " ++ r⟩) := by
      simp [docReport, hval]
    rw [hd]
    rfl
  refine ⟨heval, ?_, ?_, ?_⟩
  · rw [vcf_valid, enum_eq, hfm]
    rfl
  · rw [vcf_docReports, enum_eq, hfm]
  · rw [vcf_readError]

/-- C3 witness: the reference `"missing.json"` is relative (empty scheme),
absent from the store containing only `shared-definitions.json`, and a file
exercising it is reported invalid with the reference-not-found
diagnostic. -/
theorem c3_unresolved_reference_witness :
    (urlparse "missing.json").scheme = ""
    ∧ evalErrors [("shared-definitions.json", Json.obj [])] 1
        (Json.obj [("$ref", Json.str "missing.json")]) (Json.obj [])
      = [⟨[], "reference not found: " ++ "missing.json"⟩]
    ∧ (validate_config_file (Except.ok [some (Json.obj [])]) (Except.ok (Json.obj []))
        (Json.obj [("$ref", Json.str "missing.json")]) 1).valid = false := by
  have h := c3_unresolved_reference (Json.obj []) (Json.obj []) "missing.json" 0 rfl rfl
  exact ⟨rfl, h.1, h.2.1⟩

/-- C7: the resolver decomposes every reference it receives with `urlparse`;
with an empty scheme it returns the store entry keyed by the path stripped
of leading separators — `none` (unresolved) when the key is absent — and
with a non-empty scheme it resolves nothing. -/
theorem c7_resolver_decomposition (store : List (String × Json)) (uri : String) :
    ((urlparse uri).scheme = "" →
        custom_uri_handler store uri
          = storeGet store (lstripSlash (urlparse uri).path))
    ∧ ((urlparse uri).scheme = "" →
        storeGet store (lstripSlash (urlparse uri).path) = none →
        custom_uri_handler store uri = none)
    ∧ ((urlparse uri).scheme ≠ "" → custom_uri_handler store uri = none) := by
  refine ⟨?_, ?_, ?_⟩
  · intro h
    show (if (urlparse uri).scheme = ""
          then storeGet store (lstripSlash (urlparse uri).path) else none) = _
    rw [if_pos h]
  · intro h habs
    show (if (urlparse uri).scheme = ""
          then storeGet store (lstripSlash (urlparse uri).path) else none) = none
    rw [if_pos h]
    exact habs
  · intro h
    show (if (urlparse uri).scheme = ""
          then storeGet store (lstripSlash (urlparse uri).path) else none) = none
    rw [if_neg h]

/-- C7 witness: `/shared-definitions.json` has an empty scheme, its leading
separator is stripped and the store entry is returned; the absent key
`missing.json` resolves to `none`. -/
theorem c7_resolver_decomposition_witness :
    custom_uri_handler [("shared-definitions.json", Json.null)] "/shared-definitions.json"
      = storeGet [("shared-definitions.json", Json.null)]
          (lstripSlash (urlparse "/shared-definitions.json").path)
    ∧ custom_uri_handler [("other.json", Json.null)] "missing.json" = none :=
  ⟨(c7_resolver_decomposition [("shared-definitions.json", Json.null)]
      "/shared-definitions.json").1 rfl,
   (c7_resolver_decomposition [("other.json", Json.null)] "missing.json").2.1 rfl rfl⟩

/-- C8: serialising a schema with `json.dump(..., indent=2)` and reloading
it with `json.load` is the identity, so reloading through `load_schema` from
a file holding the dump returns the very same schema and every file
validates with the same outcome against the reloaded schema as against the
original. -/
theorem c8_schema_roundtrip (schema : Json) (hwf : wfJ schema = true) :
    json_load (json_dump schema) = some schema
    ∧ (∀ p : String,
        load_schema (fun q => if q = p then some (json_dump schema) else none)
          (some p) "current" = Except.ok schema)
    ∧ (∀ s2, json_load (json_dump schema) = some s2 →
        ∀ parsed sharedDefs fuel,
          validate_config_file parsed sharedDefs s2 fuel
            = validate_config_file parsed sharedDefs schema fuel) := by
  have h1 := json_load_dump schema hwf
  refine ⟨h1, ?_, ?_⟩
  · intro p
    show (match (if p = p then some (json_dump schema) else none) with
          | none => Except.error ()
          | some content =>
            match json_load content with
            | none => Except.error ()
            | some j => Except.ok j) = Except.ok schema
    rw [if_pos rfl]
    show (match json_load (json_dump schema) with
          | none => Except.error ()
          | some j => Except.ok j) = Except.ok schema
    rw [h1]
  · intro s2 hs2 parsed sharedDefs fuel
    rw [h1] at hs2
    injection hs2 with h3
    rw [← h3]

/-- Schema used by the C8 witness. -/
def schemaC8 : Json :=
  Json.obj [("type", Json.str "object"),
            ("required", Json.arr [Json.str "plugin"]),
            ("properties", Json.obj [("plugin", Json.obj [("type", Json.str "string")])])]

/-- C8 witness: the representative schema round-trips through dump and load. -/
theorem c8_schema_roundtrip_witness :
    wfJ schemaC8 = true ∧ json_load (json_dump schemaC8) = some schemaC8 :=
  ⟨rfl, (c8_schema_roundtrip schemaC8 rfl).1⟩
